import Mathlib

/-!
Verification of the ai2ai-protocol node runtime against its specification.

The JavaScript sources are embedded shallowly: every definition below mirrors a
concrete function of the repository (the doc comment of each definition names
its source file and function).  External Node.js primitives (`crypto.sign`,
`crypto.diffieHellman`, `JSON.stringify`, ...) are modelled explicitly:
`JSON.stringify`/`JSON.parse` by an executable printer/parser pair over a JSON
value type, and the cryptographic primitives by standard symbolic
(perfect-cryptography) models whose interfaces match the Node API as used by
the sources.
-/

namespace AI2AI

mutual

/-- JSON values, as produced by `JSON.parse` and consumed by `JSON.stringify`
in the sources.  Object fields keep their insertion order, exactly as
JavaScript objects do; numbers are restricted to integers (the payloads the
repository builds carry only integral numbers). -/
inductive Json : Type where
  | null : Json
  | bool (b : Bool) : Json
  | num (n : Int) : Json
  | str (s : String) : Json
  | arr (elems : Jarr) : Json
  | obj (fields : Jobj) : Json

/-- Elements of a JSON array, in order. -/
inductive Jarr : Type where
  | nil : Jarr
  | cons (hd : Json) (tl : Jarr) : Jarr

/-- Fields of a JSON object, in insertion order (JavaScript object key order). -/
inductive Jobj : Type where
  | nil : Jobj
  | cons (key : String) (val : Json) (tl : Jobj) : Jobj

end

namespace Json

/-- Decimal digit character for `d < 10`, as JavaScript number-to-string. -/
def digitChar (d : Nat) : Char := Char.ofNat (48 + d)

/-- Print a natural number in decimal, most significant digit first
(`String(n)` in JavaScript). -/
def printNat (n : Nat) : List Char :=
  if n = 0 then ['0'] else ((Nat.digits 10 n).map digitChar).reverse

/-- Print an integer in decimal (`JSON.stringify` of a JS number). -/
def printInt : Int → List Char
  | Int.ofNat n => printNat n
  | Int.negSucc m => '-' :: printNat (m + 1)

/-- Lower-case hex digit for `d < 16` (`Number.prototype.toString(16)`). -/
def hexDigit (d : Nat) : Char :=
  if d < 10 then Char.ofNat (48 + d) else Char.ofNat (87 + d)

/-- Escape one character the way `JSON.stringify` escapes string contents:
quote and backslash get a backslash escape, the five named control characters
use their short forms, every other control character below U+0020 becomes
`\u00XX`, and all remaining characters are emitted literally. -/
def escChar (c : Char) : List Char :=
  if c = '"' then ['\\', '"']
  else if c = '\\' then ['\\', '\\']
  else if c = '\x08' then ['\\', 'b']
  else if c = '\x0c' then ['\\', 'f']
  else if c = '\n' then ['\\', 'n']
  else if c = '\r' then ['\\', 'r']
  else if c = '\t' then ['\\', 't']
  else if c.toNat < 32 then
    ['\\', 'u', '0', '0', hexDigit (c.toNat / 16), hexDigit (c.toNat % 16)]
  else [c]

/-- Escape a character list (`JSON.stringify` string body). -/
def escape : List Char → List Char
  | [] => []
  | c :: cs => escChar c ++ escape cs

/-- Print a JSON string literal including the surrounding quotes. -/
def printStr (s : String) : List Char :=
  '"' :: (escape s.data ++ ['"'])

end Json

mutual

/-- `JSON.stringify` with no spacing argument: compact output, object keys in
insertion order.  This is the byte string the sources sign and encrypt. -/
def Json.print : Json → List Char
  | .null => "null".data
  | .bool true => "true".data
  | .bool false => "false".data
  | .num n => Json.printInt n
  | .str s => Json.printStr s
  | .arr es => '[' :: (Jarr.print es ++ [']'])
  | .obj fs => '{' :: (Jobj.print fs ++ ['}'])

/-- Comma-separated array elements. -/
def Jarr.print : Jarr → List Char
  | .nil => []
  | .cons v .nil => Json.print v
  | .cons v tl => Json.print v ++ ',' :: Jarr.print tl

/-- Comma-separated `"key":value` object fields. -/
def Jobj.print : Jobj → List Char
  | .nil => []
  | .cons k v .nil => Json.printStr k ++ ':' :: Json.print v
  | .cons k v tl => Json.printStr k ++ ':' :: Json.print v ++ ',' :: Jobj.print tl

end

/-- `JSON.stringify` as a `String`. -/
def Json.stringify (v : Json) : String := String.mk (Json.print v)

namespace Json

/-- Is `c` a decimal digit character? -/
def isDigitChar (c : Char) : Bool := 48 ≤ c.toNat && c.toNat ≤ 57

/-- Numeric value of a decimal digit character. -/
def charDigit (c : Char) : Nat := c.toNat - 48

/-- Fold a big-endian run of digit characters into a natural number. -/
def digitsToNat (ds : List Char) : Nat :=
  ds.foldl (fun a c => 10 * a + charDigit c) 0

/-- Parse a maximal nonempty run of decimal digits. -/
def parseNat (s : List Char) : Option (Nat × List Char) :=
  let ds := s.takeWhile isDigitChar
  if ds.isEmpty then none else some (digitsToNat ds, s.dropWhile isDigitChar)

/-- Value of a lower-case hex digit character, if it is one. -/
def hexVal (c : Char) : Option Nat :=
  if 48 ≤ c.toNat && c.toNat ≤ 57 then some (c.toNat - 48)
  else if 97 ≤ c.toNat && c.toNat ≤ 102 then some (c.toNat - 87)
  else none

/-- Parse the body of a JSON string literal (the opening quote already
consumed), unescaping as `JSON.parse` does; `acc` holds the characters read so
far, reversed. -/
def parseStrAux (acc : List Char) : List Char → Option (String × List Char)
  | [] => none
  | c :: r =>
    if c = '"' then some (String.mk acc.reverse, r)
    else if c = '\\' then
      match r with
      | [] => none
      | e :: r2 =>
        if e = '"' then parseStrAux ('"' :: acc) r2
        else if e = '\\' then parseStrAux ('\\' :: acc) r2
        else if e = 'b' then parseStrAux ('\x08' :: acc) r2
        else if e = 'f' then parseStrAux ('\x0c' :: acc) r2
        else if e = 'n' then parseStrAux ('\n' :: acc) r2
        else if e = 'r' then parseStrAux ('\r' :: acc) r2
        else if e = 't' then parseStrAux ('\t' :: acc) r2
        else if e = 'u' then
          match r2 with
          | h1 :: h2 :: h3 :: h4 :: r3 =>
            match hexVal h1, hexVal h2, hexVal h3, hexVal h4 with
            | some a, some b, some c2, some d =>
              parseStrAux (Char.ofNat (4096 * a + 256 * b + 16 * c2 + d) :: acc) r3
            | _, _, _, _ => none
          | _ => none
        else none
    else parseStrAux (c :: acc) r

end Json

mutual

/-- Fuel-indexed JSON value parser (model of `JSON.parse` on the compact
documents this codebase produces). -/
def Json.parseVal : Nat → List Char → Option (Json × List Char)
  | 0, _ => none
  | fuel + 1, s =>
    match s with
    | [] => none
    | c :: r =>
      if c = 'n' then (if r.take 3 = ['u', 'l', 'l'] then some (.null, r.drop 3) else none)
      else if c = 't' then (if r.take 3 = ['r', 'u', 'e'] then some (.bool true, r.drop 3) else none)
      else if c = 'f' then (if r.take 4 = ['a', 'l', 's', 'e'] then some (.bool false, r.drop 4) else none)
      else if c = '"' then (Json.parseStrAux [] r).map fun p => (.str p.1, p.2)
      else if c = '[' then
        if r.head? = some ']' then some (.arr .nil, r.tail)
        else (Json.parseElems fuel r).map fun p => (.arr p.1, p.2)
      else if c = '{' then
        if r.head? = some '}' then some (.obj .nil, r.tail)
        else (Json.parseFields fuel r).map fun p => (.obj p.1, p.2)
      else if c = '-' then (Json.parseNat r).map fun p => (.num (-(p.1 : Int)), p.2)
      else if Json.isDigitChar c then
        (Json.parseNat (c :: r)).map fun p => (.num (p.1 : Int), p.2)
      else none

/-- Parse one or more comma-separated array elements up to the closing `]`. -/
def Json.parseElems : Nat → List Char → Option (Jarr × List Char)
  | 0, _ => none
  | fuel + 1, s =>
    match Json.parseVal fuel s with
    | none => none
    | some (v, r) =>
      match r with
      | ',' :: r2 =>
        match Json.parseElems fuel r2 with
        | some (vs, r3) => some (.cons v vs, r3)
        | none => none
      | ']' :: r2 => some (.cons v .nil, r2)
      | _ => none

/-- Parse one or more comma-separated object fields up to the closing `}`. -/
def Json.parseFields : Nat → List Char → Option (Jobj × List Char)
  | 0, _ => none
  | fuel + 1, '"' :: r =>
    match Json.parseStrAux [] r with
    | some (k, ':' :: r1) =>
      (match Json.parseVal fuel r1 with
       | none => none
       | some (v, r2) =>
         match r2 with
         | ',' :: r3 =>
           match Json.parseFields fuel r3 with
           | some (fs, r4) => some (.cons k v fs, r4)
           | none => none
         | '}' :: r3 => some (.cons k v .nil, r3)
         | _ => none)
    | _ => none
  | _ + 1, _ => none

end

/-- `JSON.parse`: succeeds when the whole input is one JSON document. -/
def Json.parse (s : String) : Option Json :=
  match Json.parseVal (s.data.length + 1) s.data with
  | some (v, []) => some v
  | _ => none

namespace Json

/-- The continuation after a printed number must not start with a digit. -/
def noDigit : List Char → Prop
  | [] => True
  | c :: _ => isDigitChar c = false

end Json

mutual

/-- Fuel bound: the parser needs at most this much fuel on a printed value. -/
def Json.sizeV : Json → Nat
  | .null => 1
  | .bool _ => 1
  | .num _ => 1
  | .str _ => 1
  | .arr es => 1 + Jarr.sizeA es
  | .obj fs => 1 + Jobj.sizeO fs

/-- Fuel bound for a printed nonempty element list. -/
def Jarr.sizeA : Jarr → Nat
  | .nil => 0
  | .cons v tl => 1 + max (Json.sizeV v) (Jarr.sizeA tl)

/-- Fuel bound for a printed nonempty field list. -/
def Jobj.sizeO : Jobj → Nat
  | .nil => 0
  | .cons _ v tl => 1 + max (Json.sizeV v) (Jobj.sizeO tl)

end

namespace Json

/-- The continuation after a printed value must not begin with a digit when
the value is a number (JSON uses maximal-munch number lexing). -/
def numSafe : Json → List Char → Prop
  | .num _, rest => noDigit rest
  | _, _ => True

end Json

/-! ### Symbolic model of the Node.js cryptographic primitives

Ed25519 is modelled as a perfect signature scheme: a detached signature
determines the signed bytes and the signing key, and verification checks
exactly that.  X25519/HKDF/AES-256-GCM are modelled as a perfect
key-agreement + AEAD: the shared secret of `(priv, pub)` pairs agrees for
matching key pairs and differs otherwise, and AEAD decryption returns the
exact plaintext when and only when the recomputed key matches. -/

/-- An Ed25519 private key (symbolic, identified by its scalar). -/
structure PrivKey where
  keyId : Nat
deriving DecidableEq

/-- An Ed25519 public key. -/
structure PubKey where
  keyId : Nat
deriving DecidableEq

/-- Public key of a private key (Node derives it at keypair generation). -/
def pubOf (k : PrivKey) : PubKey := ⟨k.keyId⟩

/-- A detached Ed25519 signature.  `crypto.sign(null, msg, priv)`: in the
perfect-signature model it commits to the signed bytes and the key. -/
structure Sig where
  message : List Char
  keyId : Nat
deriving DecidableEq

/-- `crypto.sign(null, Buffer.from(msg), privateKey)`. -/
def signPrim (msg : List Char) (k : PrivKey) : Sig := ⟨msg, k.keyId⟩

/-- `crypto.verify(null, Buffer.from(msg), publicKey, signature)`. -/
def verifyPrim (msg : List Char) (sig : Sig) (p : PubKey) : Bool :=
  sig.message = msg ∧ sig.keyId = p.keyId

/-- An X25519 private scalar. -/
structure XPriv where
  scalar : Nat
deriving DecidableEq

/-- An X25519 public key (symbolic group element). -/
structure XPub where
  point : Nat
deriving DecidableEq

/-- X25519 public key derivation. -/
def xpub (k : XPriv) : XPub := ⟨k.scalar⟩

/-- `crypto.diffieHellman({privateKey, publicKey})`: symbolic commutative
shared secret (`dh a (xpub b) = dh b (xpub a)`, and distinct private keys
yield distinct secrets against the same public key). -/
def dh (k : XPriv) (p : XPub) : Nat := k.scalar + p.point

/-- `crypto.hkdfSync('sha256', secret, '', 'ai2ai-payload-encryption', 32)`:
an injective key-derivation function (modelled as the identity on the
symbolic secret). -/
def hkdf (secret : Nat) : Nat := secret

namespace Json

/-- Property lookup on a JSON object (`obj[key]`, first binding wins —
JavaScript objects have unique keys). -/
def Jobj.lookup : Jobj → String → Option Json
  | .nil, _ => none
  | .cons k v tl, key => if k = key then some v else Jobj.lookup tl key

/-- `obj?.[key]` on an arbitrary JSON value: `none` models `undefined`. -/
def getField : Json → String → Option Json
  | .obj fs, key => Jobj.lookup fs key
  | _, _ => none

/-- JavaScript truthiness of a JSON value. -/
def jsTruthy : Json → Bool
  | .null => false
  | .bool b => b
  | .num n => decide (n ≠ 0)
  | .str s => decide (s ≠ "")
  | .arr _ => true
  | .obj _ => true

end Json

/-- `isEncrypted` (`ai2ai-encryption`, src/unnamed/part_011 987–989):
`payload != null && payload._encrypted === true`. -/
def isEncrypted (payload : Json) : Bool :=
  match Json.getField payload "_encrypted" with
  | some (.bool true) => true
  | _ => false

/-- `encryptPayloadX25519` (`ai2ai-encryption`, src/unnamed/part_011
860–902): serialize the payload, run ephemeral ECDH against the recipient's
X25519 key, derive the AES key by HKDF, AES-256-GCM encrypt.  The ephemeral
scalar and the 96-bit GCM nonce are explicit arguments (the source draws
them from `crypto.generateKeyPairSync` / `crypto.randomBytes`).  The
base64 wire fields are modelled symbolically: `ciphertext` carries the
UTF-8 plaintext and `tag` carries the AEAD key commitment — AEAD decryption
returns the plaintext exactly when the recomputed key matches the tag,
which is what AES-256-GCM guarantees up to cryptographic soundness. -/
def encryptPayloadX25519 (payloadObj : Json) (recipientPub : XPub)
    (eph : XPriv) (iv : Nat) : Json :=
  let plaintext := Json.stringify payloadObj
  let sharedSecret := dh eph recipientPub
  let aesKey := hkdf sharedSecret
  .obj (.cons "_encrypted" (.bool true)
    (.cons "ephemeralPub" (.num ((xpub eph).point : Int))
    (.cons "nonce" (.num (iv : Int))
    (.cons "ciphertext" (.str plaintext)
    (.cons "tag" (.num (aesKey : Int)) .nil)))))

/-- `decryptPayloadX25519` (`ai2ai-encryption`, src/unnamed/part_011
911–943): read the envelope fields, recompute the shared secret from our
X25519 private key and the ephemeral public key, HKDF, AEAD-open, and
`JSON.parse` the plaintext; any failure yields `none` (the source returns
`null` from its catch-all). -/
def decryptPayloadX25519 (encryptedPayload : Json) (ourPriv : XPriv) : Option Json :=
  match Json.getField encryptedPayload "ephemeralPub",
        Json.getField encryptedPayload "nonce",
        Json.getField encryptedPayload "ciphertext",
        Json.getField encryptedPayload "tag" with
  | some (.num ephPoint), some (.num _), some (.str ct), some (.num tag) =>
    let sharedSecret := dh ourPriv ⟨ephPoint.toNat⟩
    let aesKey := hkdf sharedSecret
    if (aesKey : Int) = tag then Json.parse ct else none
  | _, _, _, _ => none

/-! ### Envelope codec (`ai2ai-crypto`, src/unnamed/part_004) -/

/-- The eight signed fields of an envelope.  `from`/`to` are arbitrary JSON
objects (the codec re-serializes whatever they hold); `intent` is `null`
for `ping`/`receipt` (`intent || null` in `createEnvelope`). -/
structure Envelope where
  id : String
  timestamp : String
  fromF : Json
  toF : Json
  conversation : String
  type : String
  intent : Option String
  payload : Json

/-- A nullable string as JSON. -/
def jsonOfOptStr : Option String → Json
  | some s => .str s
  | none => .null

/-- The object `{id, timestamp, from, to, conversation, type, intent,
payload}` built by `signMessage`/`verifyMessage` (part_004, 77–91 and
96–114) and by `AI2AI._sign` (src/src/client.js 418–431) — field order is
the JavaScript object-literal insertion order. -/
def signedJson (e : Envelope) : Json :=
  .obj (.cons "id" (.str e.id)
    (.cons "timestamp" (.str e.timestamp)
    (.cons "from" e.fromF
    (.cons "to" e.toF
    (.cons "conversation" (.str e.conversation)
    (.cons "type" (.str e.type)
    (.cons "intent" (jsonOfOptStr e.intent)
    (.cons "payload" e.payload .nil))))))))

/-- The canonical signed bytes: `JSON.stringify` of `signedJson`. -/
def canonBytes (e : Envelope) : List Char := Json.print (signedJson e)

/-- `signMessage(envelope, privateKeyPem)` (part_004, 77–91). -/
def signMessage (e : Envelope) (k : PrivKey) : Sig :=
  signPrim (canonBytes e) k

/-- `verifyMessage(envelope, signature, publicKeyPem)` (part_004, 96–114). -/
def verifyMessage (e : Envelope) (sig : Sig) (p : PubKey) : Bool :=
  verifyPrim (canonBytes e) sig p

/-- A full wire envelope as built by `AI2AI._createEnvelope`
(src/src/client.js 205–227) and `createEnvelope` (src/src/ai2ai-client.js
27–59): the eight signed fields plus the unsigned ones. -/
structure WireEnvelope where
  ai2ai : String
  id : String
  nonce : Option String
  timestamp : String
  fromF : Json
  toF : Json
  conversation : String
  type : String
  intent : Option String
  payload : Json
  requires_human_approval : Bool
  expiresAt : Option String
  signature : Option Sig
  payloadEncrypted : Bool := false

/-- The signed-field projection of a wire envelope: exactly what
`signMessage`/`_sign` reads. -/
def coreOf (w : WireEnvelope) : Envelope :=
  ⟨w.id, w.timestamp, w.fromF, w.toF, w.conversation, w.type, w.intent, w.payload⟩

/-- The byte string signed and verified for a wire envelope. -/
def signedBytes (w : WireEnvelope) : List Char := canonBytes (coreOf w)

/-- Modelled from the spec: the signed byte string as §4.2/§6 word it — the
JSON encoding of the same eight fields but with keys in **lexicographic**
order (conversation, from, id, intent, payload, timestamp, to, type),
no whitespace.  To be compared against `signedBytes`, the encoding the
source actually produces. -/
def signedBytesLexSpec (w : WireEnvelope) : List Char :=
  Json.print (.obj (.cons "conversation" (.str w.conversation)
    (.cons "from" w.fromF
    (.cons "id" (.str w.id)
    (.cons "intent" (jsonOfOptStr w.intent)
    (.cons "payload" w.payload
    (.cons "timestamp" (.str w.timestamp)
    (.cons "to" w.toF
    (.cons "type" (.str w.type) .nil)))))))))

/-! ### Contacts and trust (`ai2ai-trust.js`, src/src) -/

/-- A contact record, restricted to the fields the embedded logic reads
(`publicKey`, `x25519PublicKey`, `trustLevel`, `blocked`). -/
structure Contact where
  publicKey : Option PubKey := none
  x25519PublicKey : Option XPub := none
  trustLevel : Option String := none
  blocked : Bool := false
deriving DecidableEq

/-- The on-disk contact map (`contacts.json`): agent id → contact. -/
abbrev Contacts := List (String × Contact)

/-- `getContact(agentId)` (ai2ai-trust.js 50–53). -/
def getContact (contacts : Contacts) (agentId : String) : Option Contact :=
  (List.find? (fun p => p.1 = agentId) contacts).map (fun p => p.2)

/-- `getContact` through an optional agent id (`contacts[undefined]` is
`undefined` in the source). -/
def getContactOpt (contacts : Contacts) : Option String → Option Contact
  | some a => getContact contacts a
  | none => none

/-- `isBlocked(agentId)` (ai2ai-trust.js 115–118):
`contact?.blocked === true`. -/
def isBlocked (contacts : Contacts) (agentId : Option String) : Bool :=
  match getContactOpt contacts agentId with
  | some c => c.blocked
  | none => false

/-- `ALWAYS_APPROVE` (ai2ai-trust.js 18–24): intents that always require
human approval regardless of trust. -/
def ALWAYS_APPROVE : List String :=
  ["commerce.request", "commerce.offer", "commerce.accept", "commerce.reject",
   "task.delegate"]

/-- `ALWAYS_APPROVE.includes(intent)` with a possibly-null intent. -/
def alwaysApproveIntent : Option String → Bool
  | some i => ALWAYS_APPROVE.contains i
  | none => false

/-- `requiresApproval(agentId, intent, type)` (ai2ai-trust.js 82–103). -/
def requiresApproval (contacts : Contacts) (agentId : Option String)
    (intent : Option String) (type : String) : Bool :=
  if alwaysApproveIntent intent then true
  else
    match getContactOpt contacts agentId with
    | none => true
    | some contact =>
      match contact.trustLevel with
      | some "trusted" => alwaysApproveIntent intent
      | some "known" => type = "request"
      | _ => true

/-! ### Intent handlers (`ai2ai-handlers.js`, src/unnamed/part_006)

Each handler returns an object whose `needsApproval` /
`alwaysRequiresApproval` fields drive the approval flow; the human-facing
`approvalMessage` and `formatResponse` do not influence routing and are
omitted from the model. -/

/-- The approval-control outputs of an intent handler. -/
structure HandlerResult where
  needsApproval : Bool
  alwaysRequiresApproval : Bool := false

/-- Truthiness of an optional field (`payload.reply_requested` etc.). -/
def fieldTruthy (p : Json) (key : String) : Bool :=
  match Json.getField p key with
  | some v => Json.jsTruthy v
  | none => false

/-- `HANDLERS` (part_006, 360–372): the handler registry, with each
handler reduced to its approval-control outputs as a function of the
payload. -/
def HANDLERS : List (String × (Json → HandlerResult)) :=
  [("schedule.meeting", fun _ => ⟨true, false⟩),
   ("schedule.call", fun _ => ⟨true, false⟩),
   ("schedule.group", fun _ => ⟨true, false⟩),
   ("message.relay", fun p => ⟨fieldTruthy p "reply_requested", false⟩),
   ("info.request", fun _ => ⟨true, false⟩),
   ("info.share", fun _ => ⟨false, false⟩),
   ("social.introduction", fun _ => ⟨true, false⟩),
   ("commerce.request", fun _ => ⟨true, true⟩),
   ("commerce.offer", fun _ => ⟨true, true⟩),
   ("commerce.accept", fun _ => ⟨false, false⟩),
   ("commerce.reject", fun _ => ⟨false, false⟩)]

/-- `getHandler(intent)` (part_006, 377–379): `HANDLERS[intent] || null`. -/
def getHandler (intent : Option String) : Option (Json → HandlerResult) :=
  match intent with
  | some i => (List.find? (fun p => p.1 = i) HANDLERS).map (fun p => p.2)
  | none => none

/-! ### Client egress (`ai2ai-client.js`, src/src) -/

/-- The client configuration (`CONFIG`, ai2ai-client.js 15–21). -/
structure ClientConfig where
  agentName : String
  humanName : String
  enableEncryption : Bool := true
  enableQueue : Bool := true

/-- `from?.agent` / `to?.agent` on a JSON value. -/
def agentField (j : Json) : Option String :=
  match Json.getField j "agent" with
  | some (.str a) => some a
  | _ => none

/-- `Array.isArray(envelope.to) ? envelope.to[0]?.agent : envelope.to?.agent`
(ai2ai-client.js 69 and 110). -/
def recipientAgentOf (toF : Json) : Option String :=
  match toF with
  | .arr (.cons first _) => agentField first
  | .arr .nil => none
  | other => agentField other

/-- `createEnvelope` (ai2ai-client.js 27–59): build the envelope — with the
*plaintext* payload — and sign it immediately.  `id` and `timestamp` are
explicit arguments (the source draws them from `crypto.randomUUID()` and
`new Date()`); `participants` is omitted (not read by any embedded
logic). -/
def createEnvelope (cfg : ClientConfig) (key : PrivKey) (idv timestamp : String)
    (toF : Json) (type : String) (intent : Option String) (payload : Json)
    (conversationId : String) (requiresHumanApproval : Bool) : WireEnvelope :=
  let w : WireEnvelope :=
    { ai2ai := "0.1"
      id := idv
      nonce := none
      timestamp := timestamp
      fromF := .obj (.cons "agent" (.str cfg.agentName)
        (.cons "node" (.str (cfg.agentName ++ "-node"))
        (.cons "human" (.str cfg.humanName) .nil)))
      toF := toF
      conversation := conversationId
      type := type
      intent := intent
      payload := payload
      requires_human_approval := requiresHumanApproval
      expiresAt := none
      signature := none }
  { w with signature := some (signMessage (coreOf w) key) }

/-- `maybeEncryptEnvelope` (ai2ai-client.js 65–82): if encryption is enabled
and the recipient has a recorded X25519 key, replace `payload` with its
encrypted variant — leaving the already-computed `signature` untouched.
The ephemeral scalar and GCM nonce are explicit arguments. -/
def maybeEncryptEnvelope (cfg : ClientConfig) (contacts : Contacts)
    (eph : XPriv) (iv : Nat) (w : WireEnvelope) : WireEnvelope :=
  if ¬ cfg.enableEncryption then w
  else
    match recipientAgentOf w.toF with
    | none => w
    | some agent =>
      match getContact contacts agent with
      | none => w
      | some contact =>
        match contact.x25519PublicKey with
        | none => w
        | some xpk =>
          { w with payload := encryptPayloadX25519 w.payload xpk eph iv
                   payloadEncrypted := true }

/-- `sendMessage` (ai2ai-client.js 109–154), reduced to what reaches the
wire: reject blocked recipients, then POST `maybeEncryptEnvelope(envelope)`.
Returns the envelope actually transmitted (`none` when the recipient is
blocked and the function throws). -/
def sendMessage (cfg : ClientConfig) (contacts : Contacts) (eph : XPriv)
    (iv : Nat) (w : WireEnvelope) : Option WireEnvelope :=
  match recipientAgentOf w.toF with
  | some agent =>
    if isBlocked contacts (some agent) then none
    else some (maybeEncryptEnvelope cfg contacts eph iv w)
  | none => some (maybeEncryptEnvelope cfg contacts eph iv w)

/-! ### Server ingress (`ai2ai-server.js`, src/src) -/

/-- The structured responses `processMessage` and its handlers return
(`{status, reason?}`). -/
inductive SrvResult where
  | rejected (reason : String)
  | error (reason : String)
  | pendingApproval
  | ok
deriving DecidableEq

/-- `checkRateLimit(agentId)` (ai2ai-server.js 35–45), decision only: the
window is the recorded timestamp list for the sender, `now` the current
clock. -/
def checkRateLimit (window : List Int) (now : Int) : Bool :=
  (window.filter (fun t => now - t < 60000)).length < 20

/-- `maybeDecryptPayload` (ai2ai-server.js 66–87): decrypt when the payload
carries the encrypted variant; `none` signals `decryption_failed`.  (The
source's outer `catch` is unreachable: `decryptPayloadX25519` never
throws.) -/
def maybeDecryptPayload (e : WireEnvelope) (xk : XPriv) : Option WireEnvelope :=
  if ¬ isEncrypted e.payload then some e
  else
    match decryptPayloadX25519 e.payload xk with
    | some d => some { e with payload := d }
    | none => none

/-- `handleRequest(envelope)` (ai2ai-server.js 208–247): route to the intent
handler; enqueue a pending approval when the handler or the trust policy
demands one.  Returns the response and whether a pending approval was
saved. -/
def handleRequest (contacts : Contacts) (e : WireEnvelope) : SrvResult × Bool :=
  match getHandler e.intent with
  | none => (.error "unsupported_intent", false)
  | some handler =>
    let result := handler e.payload
    let alwaysApprove := result.alwaysRequiresApproval
    if alwaysApprove || result.needsApproval
        || requiresApproval contacts (agentField e.fromF) e.intent e.type then
      (.pendingApproval, true)
    else
      (.ok, false)

/-- `processMessage(envelope)` (ai2ai-server.js 92–160): blocklist → rate
limit → signature verification (only when the sender has a recorded key AND
the envelope carries a signature) → decryption → dispatch by type.  The
rate window for the sender and the clock are explicit; conversation-log and
contact-upsert side effects do not affect the response and are omitted. -/
def processMessage (contacts : Contacts) (window : List Int) (now : Int)
    (xk : XPriv) (e : WireEnvelope) : SrvResult :=
  let fromAgentId := agentField e.fromF
  if isBlocked contacts fromAgentId then .rejected "blocked"
  else if ¬ checkRateLimit window now then .rejected "rate_limited"
  else
    let sigFails :=
      match getContactOpt contacts fromAgentId, e.signature with
      | some contact, some sig =>
        match contact.publicKey with
        | some pk => ! verifyMessage (coreOf e) sig pk
        | none => false
      | _, _ => false
    if sigFails then .rejected "invalid_signature"
    else
      match maybeDecryptPayload e xk with
      | none => .error "decryption_failed"
      | some e2 =>
        match e2.type with
        | "ping" => .ok
        | "request" => (handleRequest contacts e2).1
        | "response" => .ok
        | "confirm" => .ok
        | "reject" => .ok
        | "inform" => .ok
        | t => .error ("Unknown message type: " ++ t)

/-! ### Node ingress pipeline (`AI2AI._handleRequest`, src/src/client.js
305–396) together with its security/reliability primitives
(src/src/security.js, src/src/reliability.js). -/

/-- An inbound HTTP envelope after JSON parsing: every field may be absent
(`Option`), matching the truthiness checks the pipeline performs.
`timestamp` is the parsed epoch-milliseconds value; `none` models a missing
or unparseable timestamp (both make `isMessageExpired` return false). -/
structure InEnv where
  ai2ai : Option String := none
  type : Option String := none
  fromF : Option Json := none
  id : Option String := none
  nonce : Option String := none
  timestamp : Option Int := none
  intent : Option String := none
  payload : Json := .obj .nil

/-- Mutable node state touched by the ingress pipeline: the blocklist, the
per-key rate-limit windows (`RateLimiter.windows`; the key is
`from.agent`, possibly `undefined`), the seen-nonce map
(`NonceTracker.nonces`) and the dedup map (`Deduplicator.seen`), each
value paired with its insertion timestamp. -/
structure NodeState where
  blocked : List String := []
  rateWindows : List (Option String × List Int) := []
  nonces : List (String × Int) := []
  seen : List (Option String × Int) := []

/-- HTTP responses of `POST /ai2ai` (client.js 331–395). -/
inductive HResp where
  | invalidEnvelope
  | blockedResp
  | rateLimited
  | messageExpired
  | replayDetected
  | duplicate
  | okResp
deriving DecidableEq

/-- Events the node emits for an accepted envelope (client.js 371–388),
tagged with the envelope id. -/
inductive Event where
  | message (id : Option String)
  | request (id : Option String)
  | receipt (id : Option String)
  | receiptSend (id : Option String)
deriving DecidableEq

/-- Truthiness of an optional string field (`!envelope.ai2ai` etc.). -/
def truthyStr : Option String → Bool
  | none => false
  | some s => decide (s ≠ "")

/-- `Blocklist.isBlocked` (security.js 253–255) on `from?.agent`. -/
def blocklistHas (bl : List String) : Option String → Bool
  | some a => bl.contains a
  | none => false

/-- Association-list update for JS `Map.set`. -/
def setAssoc {α β : Type} [DecidableEq α] : List (α × β) → α → β → List (α × β)
  | [], k, v => [(k, v)]
  | (k2, v2) :: tl, k, v =>
    if k2 = k then (k, v) :: tl else (k2, v2) :: setAssoc tl k v

/-- `RateLimiter.allow(key)` (security.js 143–157): filter the key's window
to the last 60 s; deny at ≥ 20 recent entries (persisting the filtered
window), else record `now` and allow. -/
def rateAllow (windows : List (Option String × List Int)) (key : Option String)
    (now : Int) : Bool × List (Option String × List Int) :=
  let timestamps := ((windows.find? (fun p => p.1 = key)).map (fun p => p.2)).getD []
  let recent := timestamps.filter (fun t => t > now - 60000)
  if recent.length ≥ 20 then (false, setAssoc windows key recent)
  else (true, setAssoc windows key (recent ++ [now]))

/-- `isMessageExpired(envelope, maxAgeMs)` (security.js 190–195). -/
def isMessageExpired (timestamp : Option Int) (now maxAge : Int) : Bool :=
  match timestamp with
  | none => false
  | some t => now - t > maxAge

/-- `NonceTracker.isReplay(nonce)` (security.js 358–363) including
`_cleanup` (365–371): evict entries older than 1 h only when the map
exceeds 10 000 entries; then report-and-record. -/
def nonceIsReplay (nonces : List (String × Int)) (nonce : String) (now : Int) :
    Bool × List (String × Int) :=
  let cleaned :=
    if nonces.length ≤ 10000 then nonces
    else nonces.filter (fun p => ¬ (p.2 < now - 3600000))
  if (cleaned.find? (fun p => p.1 = nonce)).isSome then (true, cleaned)
  else (false, cleaned ++ [(nonce, now)])

/-- `Deduplicator.isDuplicate(messageId)` (reliability.js 169–174) including
`_cleanup` (186–192); the id key may be `undefined`. -/
def dedupIsDuplicate (seen : List (Option String × Int)) (id : Option String)
    (now : Int) : Bool × List (Option String × Int) :=
  let cleaned :=
    if seen.length ≤ 10000 then seen
    else seen.filter (fun p => ¬ (p.2 < now - 3600000))
  if (cleaned.find? (fun p => p.1 = id)).isSome then (true, cleaned)
  else (false, cleaned ++ [(id, now)])

/-- The default `messageTTL` (client.js 48): 24 h in milliseconds. -/
def messageTTL : Int := 86400000

/-- The events emitted for an envelope that passed every filter
(client.js 371–388). -/
def emittedEvents (e : InEnv) : List Event :=
  let t := e.type.getD ""
  (if t = "message" ∨ t = "request" then [Event.message e.id] else [])
    ++ (if t = "request" then [Event.request e.id] else [])
    ++ (if t = "receipt" then [Event.receipt e.id] else [])
    ++ (if t ≠ "receipt" then [Event.receiptSend e.id] else [])

/-- `AI2AI._handleRequest` (client.js 305–396), from the parsed envelope
onward (the 404/413/JSON-parse guards come before and are not modelled):
shape check, blocklist, rate limit, expiry, nonce replay, dedup, then event
emission — in exactly that source order, each failure short-circuiting. -/
def nodeHandle (st : NodeState) (now : Int) (e : InEnv) :
    HResp × NodeState × List Event :=
  if ¬ (truthyStr e.ai2ai && truthyStr e.type && e.fromF.isSome) then
    (.invalidEnvelope, st, [])
  else
    let fromAgent := e.fromF.bind agentField
    if blocklistHas st.blocked fromAgent then (.blockedResp, st, [])
    else
      let ra := rateAllow st.rateWindows fromAgent now
      let st1 := { st with rateWindows := ra.2 }
      if ¬ ra.1 then (.rateLimited, st1, [])
      else if isMessageExpired e.timestamp now messageTTL then
        (.messageExpired, st1, [])
      else
        let nz :=
          match e.nonce with
          | some nv =>
            if nv ≠ "" then
              let r := nonceIsReplay st1.nonces nv now
              (r.1, { st1 with nonces := r.2 })
            else (false, st1)
          | none => (false, st1)
        if nz.1 then (.replayDetected, nz.2, [])
        else
          let dd := dedupIsDuplicate nz.2.seen e.id now
          let st3 := { nz.2 with seen := dd.2 }
          if dd.1 then (.duplicate, st3, [])
          else (.okResp, st3, emittedEvents e)

/-- Process a timed sequence of inbound envelopes through the node,
returning each step's response and emitted events. -/
def runTrace (st : NodeState) : List (Int × InEnv) → List (HResp × List Event)
  | [] => []
  | (now, e) :: tl =>
    let r := nodeHandle st now e
    (r.1, r.2.2) :: runTrace r.2.1 tl

/-- How many envelopes bearing id `idv` were accepted (and hence had their
events emitted) along a trace. -/
def emitCount (st : NodeState) (tr : List (Int × InEnv)) (idv : Option String) : Nat :=
  (tr.zip (runTrace st tr)).countP
    (fun s => decide (s.2.1 = HResp.okResp ∧ s.1.2.id = idv))

/-! ### Conversation state machine (`ai2ai-conversations.js`, src/skill) -/

/-- Conversation metadata, restricted to the fields `transitionState` reads
and writes (`state`, `updatedAt`); `updatedAt` is epoch milliseconds. -/
structure ConvMeta where
  state : String
  updatedAt : Int
deriving DecidableEq

/-- `TRANSITIONS` (ai2ai-conversations.js 35–41): the allowed next states
per state; `none` for a state outside the table (`TRANSITIONS[meta.state]`
is `undefined`). -/
def TRANSITIONS : String → Option (List String)
  | "proposed" => some ["negotiating", "confirmed", "rejected", "expired"]
  | "negotiating" => some ["confirmed", "rejected", "expired"]
  | "confirmed" => some []
  | "rejected" => some []
  | "expired" => some []
  | _ => none

/-- The conversation store: id → metadata (one `.meta.json` per id). -/
abbrev ConvStore := List (String × ConvMeta)

/-- Store lookup (`getConversation`, ai2ai-conversations.js 59–67). -/
def getConversation (store : ConvStore) (cid : String) : Option ConvMeta :=
  (List.find? (fun p => p.1 = cid) store).map (fun p => p.2)

/-- `transitionState(conversationId, newState)` (ai2ai-conversations.js
96–116): consult the transition table; on a disallowed move return `null`
without touching the store; on an allowed move stamp `state` and
`updatedAt` and write the file.  Result: the returned metadata (or `null`)
and the store afterwards. -/
def transitionState (store : ConvStore) (cid : String) (newState : String)
    (now : Int) : Option ConvMeta × ConvStore :=
  match getConversation store cid with
  | none => (none, store)
  | some meta =>
    match TRANSITIONS meta.state with
    | none => (none, store)
    | some allowed =>
      if ¬ allowed.contains newState then (none, store)
      else
        let meta2 : ConvMeta := { state := newState, updatedAt := now }
        (some meta2, setAssoc store cid meta2)

/-! ### Outbound queue (`ai2ai-queue.js`, src/unnamed/part_011 1014–1278)
and interactive delivery (`AI2AI._deliver`, src/src/client.js 229–268) -/

/-- A queue entry (`enqueue`, part_011 1045–1071), restricted to the fields
`attemptDelivery` reads and writes. -/
structure QEntry where
  id : String
  attempt : Nat
  maxRetries : Nat
  status : String
  lastError : Option String
deriving DecidableEq

/-- File-system effects of the queue and dead-letter stores.  `writeDlq` is
what `DeadLetterQueue.add` (reliability.js 300–313) performs; the outbox
operations are `updateEntry`/`removeEntry` of the queue module. -/
inductive FsOp where
  | writeOutbox (id : String)
  | removeOutbox (id : String)
  | writeDlq (id : String)
deriving DecidableEq

/-- `attemptDelivery(queueId, sendFn, onFailure)` (part_011 1119–1179) with
its retry timer unrolled: `outcomes i` is whether delivery attempt `i`
(0-based) succeeds, `fuel` bounds the retries still to run.  Returns the
final entry, whether it was delivered, the number of `onFailure`
invocations, and the file-system effects in order. -/
def attemptDelivery (fuel : Nat) (e : QEntry) (outcomes : Nat → Bool) :
    QEntry × Bool × Nat × List FsOp :=
  if e.status = "delivered" ∨ e.status = "failed" then (e, false, 0, [])
  else
    let e1 : QEntry := { e with attempt := e.attempt + 1, status := "retrying" }
    if outcomes e.attempt then
      let e2 := { e1 with status := "delivered" }
      (e2, true, 0, [.writeOutbox e.id, .removeOutbox e.id])
    else
      let e2 := { e1 with lastError := some "send failed" }
      if e2.maxRetries ≤ e2.attempt then
        let e3 := { e2 with status := "failed" }
        (e3, false, 1, [.writeOutbox e.id, .writeOutbox e.id])
      else
        match fuel with
        | 0 => (e2, false, 0, [.writeOutbox e.id])
        | f + 1 =>
          let rec2 := attemptDelivery f e2 outcomes
          (rec2.1, rec2.2.1, rec2.2.2.1, .writeOutbox e.id :: rec2.2.2.2)

/-- Delivery-tracker events (`DeliveryTracker`, reliability.js 202–281). -/
inductive DEvent where
  | sent (id : String)
  | delivered (id : String)
  | read (id : String)
  | failed (id : String)
deriving DecidableEq

/-- The AI2AI node's delivery-related state (client.js constructor 57–60):
the persistent queue and the dead-letter queue, as lists of envelope
ids. -/
structure DeliverState where
  queueEntries : List String := []
  dlqEntries : List String := []
deriving DecidableEq

/-- `retryWithBackoff(fn, {maxRetries: 3, ...})` (reliability.js 35–55),
decision only: the call succeeds iff one of attempts 0..3 succeeds. -/
def retrySucceeds (outcomes : Nat → Bool) : Bool :=
  (List.range 4).any outcomes

/-- `AI2AI._deliver(targetId, envelope)` (client.js 229–268) after endpoint
resolution, blocklist and circuit checks: track `sent`, attempt delivery
with interactive retries; on success mark `delivered`; on terminal failure
mark `failed`, enqueue to the persistent queue, and return
`{status:"queued"}`.  The dead-letter queue is part of the state so that
its (non-)mutation is observable. -/
def deliver (st : DeliverState) (envelopeId : String) (outcomes : Nat → Bool) :
    String × DeliverState × List DEvent :=
  if retrySucceeds outcomes then
    ("ok", st, [DEvent.sent envelopeId, DEvent.delivered envelopeId])
  else
    ("queued",
     { st with queueEntries := st.queueEntries ++ [envelopeId] },
     [DEvent.sent envelopeId, DEvent.failed envelopeId])

/-! ### The spec-order filter chain (modelled from the spec, for claim C3)
and concrete fixtures used by the claim theorems. -/

/-- Does string `s` begin with the namespace string `ns`?  (Used to state
the commerce-prefix claim; executable and kernel-reducible.) -/
def strHasNS (ns s : String) : Bool :=
  decide (List.take ns.data.length s.data = ns.data)

/-- Does the inbound envelope pass the shape check (client.js 331)? -/
def shapeOk (e : InEnv) : Bool :=
  truthyStr e.ai2ai && truthyStr e.type && e.fromF.isSome

/-- The pure nonce-replay predicate over the initial state. -/
def nonceReplayPred (st : NodeState) (e : InEnv) (now : Int) : Bool :=
  match e.nonce with
  | some nv => (nv ≠ "" : Bool) && (nonceIsReplay st.nonces nv now).1
  | none => false

/-- The pure dedup predicate over the initial state. -/
def dedupPred (st : NodeState) (e : InEnv) (now : Int) : Bool :=
  (dedupIsDuplicate st.seen e.id now).1

/-- The ingress filter chain as a first-failing-filter verdict, in the order
the source applies: shape, blocklist, rate limit, expiry, nonce replay,
dedup (no signature verification happens in this pipeline).  Each predicate
reads the initial state; `C3` proves this equals the pipeline's actual
response. -/
def filterVerdict (st : NodeState) (now : Int) (e : InEnv) : HResp :=
  if ¬ shapeOk e then .invalidEnvelope
  else if blocklistHas st.blocked (e.fromF.bind agentField) then .blockedResp
  else if ¬ (rateAllow st.rateWindows (e.fromF.bind agentField) now).1 then .rateLimited
  else if isMessageExpired e.timestamp now messageTTL then .messageExpired
  else if nonceReplayPred st e now then .replayDetected
  else if dedupPred st e now then .duplicate
  else .okResp

/-- Fixture: client configuration. -/
def cfg0 : ClientConfig := { agentName := "ava", humanName := "Ava" }

/-- Fixture: sender Ed25519 key. -/
def k0 : PrivKey := ⟨1⟩

/-- Fixture: contact map where `bob` has an X25519 key (encryption applies). -/
def contacts1 : Contacts := [("bob", { x25519PublicKey := some ⟨5⟩ })]

/-- Fixture: recipient field. -/
def to1 : Json := .obj (.cons "agent" (.str "bob") .nil)

/-- Fixture: plaintext payload. -/
def P1 : Json := .obj (.cons "msg" (.str "hi") .nil)

/-- Fixture: the envelope `createEnvelope` builds (and signs) for C1/C2. -/
def c1w : WireEnvelope :=
  createEnvelope cfg0 k0 "id-1" "2026-02-07T00:00:00Z" to1 "message"
    (some "message.relay") P1 "conv-1" true

/-- Fixture: what `sendMessage` actually posts for C1. -/
def c1sent : Option WireEnvelope := sendMessage cfg0 contacts1 ⟨9⟩ 3 c1w

/-- Fixture: the delivered envelope for C1. -/
def c1d : WireEnvelope := c1sent.getD c1w

/-- Fixture for C4: `alice` has a recorded Ed25519 public key. -/
def contacts4 : Contacts := [("alice", { publicKey := some ⟨42⟩ })]

/-- Fixture for C4: an inbound ping from `alice` carrying NO signature. -/
def e4 : WireEnvelope :=
  { ai2ai := "0.1", id := "id-4", nonce := none
    timestamp := "2026-02-07T00:00:00Z"
    fromF := .obj (.cons "agent" (.str "alice") .nil)
    toF := .obj (.cons "agent" (.str "ava") .nil)
    conversation := "conv-4", type := "ping", intent := none
    payload := .obj .nil, requires_human_approval := true
    expiresAt := none, signature := none }

/-- Fixture for C6: `bob` is fully trusted. -/
def contacts6 : Contacts := [("bob", { trustLevel := some "trusted" })]

/-- Fixture for C6: a commerce-prefixed request with no registered handler. -/
def e6 : WireEnvelope :=
  { ai2ai := "0.1", id := "id-6", nonce := none
    timestamp := "2026-02-07T00:00:00Z"
    fromF := .obj (.cons "agent" (.str "bob") .nil)
    toF := .obj (.cons "agent" (.str "ava") .nil)
    conversation := "conv-6", type := "request", intent := some "commerce.quote"
    payload := .obj .nil, requires_human_approval := true
    expiresAt := none, signature := none }

/-- Fixture for C6 witness: a commerce.request from the trusted `bob`. -/
def e6b : WireEnvelope := { e6 with intent := some "commerce.request" }

/-- Fixture for C3: `mallory` is blocked AND sends a malformed envelope
(no `ai2ai` field). -/
def st3 : NodeState := { blocked := ["mallory"] }

/-- Fixture for C3: the malformed envelope from the blocked sender. -/
def e3 : InEnv :=
  { type := some "message"
    fromF := some (.obj (.cons "agent" (.str "mallory") .nil))
    id := some "id-3", nonce := some "n-3", timestamp := some 0 }

/-- Fixture for C5: a well-formed envelope (with nonce) that is posted
twice, bytes identical. -/
def e5 : InEnv :=
  { ai2ai := some "1.0", type := some "message"
    fromF := some (.obj (.cons "agent" (.str "carol") .nil))
    id := some "id-5", nonce := some "n-5", timestamp := some 0 }

/-- Fixture for C7: a store with conversations in several states. -/
def store7 : ConvStore :=
  [("c-prop", { state := "proposed", updatedAt := 100 }),
   ("c-conf", { state := "confirmed", updatedAt := 200 })]

/-- Fixture for C8: a fresh queue entry with two allowed attempts. -/
def e8 : QEntry :=
  { id := "q-8", attempt := 0, maxRetries := 2, status := "queued",
    lastError := none }

/-- Is a file-system operation a dead-letter write? -/
def FsOp.isDlqWrite : FsOp → Bool
  | .writeDlq _ => true
  | _ => false

/-- Is a file-system operation an outbox removal? -/
def FsOp.isRemove : FsOp → Bool
  | .removeOutbox _ => true
  | _ => false

/-! ### Round-trip correctness of the `JSON.stringify` / `JSON.parse` model

`Json.parse (Json.stringify v) = some v`.  This both validates the embedding
of the canonical byte strings and yields injectivity of `Json.print`, on which
the signed-field-coverage arguments rest. -/

namespace Json

theorem isDigitChar_digitChar {d : Nat} (hd : d < 10) :
    isDigitChar (digitChar d) = true := by
  interval_cases d <;> decide

theorem charDigit_digitChar {d : Nat} (hd : d < 10) :
    charDigit (digitChar d) = d := by
  interval_cases d <;> decide

theorem printNat_ne_nil (n : Nat) : printNat n ≠ [] := by
  unfold printNat
  split
  · simp
  · rename_i h
    have : Nat.digits 10 n ≠ [] := Nat.digits_ne_nil_iff_ne_zero.mpr h
    simp [this]

theorem mem_printNat_isDigit {n : Nat} {c : Char} (h : c ∈ printNat n) :
    isDigitChar c = true := by
  unfold printNat at h
  split at h
  · simp at h
    subst h
    decide
  · rw [List.mem_reverse, List.mem_map] at h
    obtain ⟨d, hd, rfl⟩ := h
    exact isDigitChar_digitChar (Nat.digits_lt_base (by norm_num) hd)

theorem foldl_digits (l : List Nat) (hl : ∀ d ∈ l, d < 10) (a : Nat) :
    List.foldl (fun a c => 10 * a + charDigit c) a ((l.map digitChar).reverse)
      = a * 10 ^ l.length + Nat.ofDigits 10 l := by
  induction l generalizing a with
  | nil => simp [Nat.ofDigits]
  | cons d tl ih =>
    have hd : d < 10 := hl d (by simp)
    have htl : ∀ x ∈ tl, x < 10 := fun x hx => hl x (by simp [hx])
    rw [List.map_cons, List.reverse_cons, List.foldl_append, ih htl a]
    simp only [List.foldl_cons, List.foldl_nil, charDigit_digitChar hd,
      List.length_cons, Nat.ofDigits_cons]
    ring

theorem digitsToNat_printNat (n : Nat) : digitsToNat (printNat n) = n := by
  unfold printNat digitsToNat
  split
  · rename_i h
    subst h
    decide
  · rw [foldl_digits _ (fun d hd => Nat.digits_lt_base (by norm_num) hd) 0]
    simp [Nat.ofDigits_digits]

theorem parseNat_printNat (n : Nat) (rest : List Char) (h : noDigit rest) :
    parseNat (printNat n ++ rest) = some (n, rest) := by
  have hall : ∀ x ∈ printNat n, isDigitChar x = true := fun _ hx => mem_printNat_isDigit hx
  have htw : (printNat n).takeWhile isDigitChar = printNat n :=
    List.takeWhile_eq_self_iff.mpr hall
  have htwr : rest.takeWhile isDigitChar = [] := by
    cases rest with
    | nil => rfl
    | cons c r =>
      have hc : isDigitChar c = false := h
      simp [List.takeWhile, hc]
  have hdwr : rest.dropWhile isDigitChar = rest := by
    cases rest with
    | nil => rfl
    | cons c r =>
      have hc : isDigitChar c = false := h
      simp [List.dropWhile, hc]
  unfold parseNat
  rw [List.takeWhile_append, List.dropWhile_append]
  simp [htw, htwr, hdwr, printNat_ne_nil n, digitsToNat_printNat,
    List.dropWhile_eq_nil_iff.mpr fun _ hx => hall _ hx]

theorem hexVal_hexDigit {d : Nat} (h : d < 16) : hexVal (hexDigit d) = some d := by
  interval_cases d <;> decide

theorem parseStrAux_quote (acc r : List Char) :
    parseStrAux acc ('"' :: r) = some (String.mk acc.reverse, r) := by
  rw [parseStrAux.eq_def]
  simp

theorem parseStrAux_lit (acc r : List Char) (c : Char) (h1 : c ≠ '"') (h2 : c ≠ '\\') :
    parseStrAux acc (c :: r) = parseStrAux (c :: acc) r := by
  rw [parseStrAux.eq_def]
  simp [h1, h2]

theorem parseStrAux_escQuote (acc r : List Char) :
    parseStrAux acc ('\\' :: '"' :: r) = parseStrAux ('"' :: acc) r := by
  rw [parseStrAux.eq_def]
  simp

theorem parseStrAux_escBack (acc r : List Char) :
    parseStrAux acc ('\\' :: '\\' :: r) = parseStrAux ('\\' :: acc) r := by
  rw [parseStrAux.eq_def]
  simp

theorem parseStrAux_escB (acc r : List Char) :
    parseStrAux acc ('\\' :: 'b' :: r) = parseStrAux ('\x08' :: acc) r := by
  rw [parseStrAux.eq_def]
  simp

theorem parseStrAux_escF (acc r : List Char) :
    parseStrAux acc ('\\' :: 'f' :: r) = parseStrAux ('\x0c' :: acc) r := by
  rw [parseStrAux.eq_def]
  simp

theorem parseStrAux_escN (acc r : List Char) :
    parseStrAux acc ('\\' :: 'n' :: r) = parseStrAux ('\n' :: acc) r := by
  rw [parseStrAux.eq_def]
  simp

theorem parseStrAux_escR (acc r : List Char) :
    parseStrAux acc ('\\' :: 'r' :: r) = parseStrAux ('\r' :: acc) r := by
  rw [parseStrAux.eq_def]
  simp

theorem parseStrAux_escT (acc r : List Char) :
    parseStrAux acc ('\\' :: 't' :: r) = parseStrAux ('\t' :: acc) r := by
  rw [parseStrAux.eq_def]
  simp

theorem parseStrAux_unicode (acc rs : List Char) (x y : Char) (a b : Nat)
    (hx : hexVal x = some a) (hy : hexVal y = some b) :
    parseStrAux acc ('\\' :: 'u' :: '0' :: '0' :: x :: y :: rs)
      = parseStrAux (Char.ofNat (16 * a + b) :: acc) rs := by
  have h0 : hexVal '0' = some 0 := by decide
  rw [parseStrAux.eq_def]
  simp [h0, hx, hy]

theorem parseStrAux_escape (cs : List Char) : ∀ (acc rest : List Char),
    parseStrAux acc (escape cs ++ '"' :: rest)
      = some (String.mk (acc.reverse ++ cs), rest) := by
  induction cs with
  | nil =>
    intro acc rest
    simp [escape, parseStrAux_quote]
  | cons c cs ih =>
    intro acc rest
    show parseStrAux acc ((escChar c ++ escape cs) ++ '"' :: rest) = _
    rw [List.append_assoc]
    unfold escChar
    by_cases h1 : c = '"'
    · subst h1
      rw [if_pos rfl]
      show parseStrAux acc ('\\' :: '"' :: (escape cs ++ '"' :: rest)) = _
      rw [parseStrAux_escQuote, ih]
      simp
    · rw [if_neg h1]
      by_cases h2 : c = '\\'
      · subst h2
        rw [if_pos rfl]
        show parseStrAux acc ('\\' :: '\\' :: (escape cs ++ '"' :: rest)) = _
        rw [parseStrAux_escBack, ih]
        simp
      · rw [if_neg h2]
        by_cases h3 : c = '\x08'
        · subst h3
          rw [if_pos rfl]
          show parseStrAux acc ('\\' :: 'b' :: (escape cs ++ '"' :: rest)) = _
          rw [parseStrAux_escB, ih]
          simp
        · rw [if_neg h3]
          by_cases h4 : c = '\x0c'
          · subst h4
            rw [if_pos rfl]
            show parseStrAux acc ('\\' :: 'f' :: (escape cs ++ '"' :: rest)) = _
            rw [parseStrAux_escF, ih]
            simp
          · rw [if_neg h4]
            by_cases h5 : c = '\n'
            · subst h5
              rw [if_pos rfl]
              show parseStrAux acc ('\\' :: 'n' :: (escape cs ++ '"' :: rest)) = _
              rw [parseStrAux_escN, ih]
              simp
            · rw [if_neg h5]
              by_cases h6 : c = '\r'
              · subst h6
                rw [if_pos rfl]
                show parseStrAux acc ('\\' :: 'r' :: (escape cs ++ '"' :: rest)) = _
                rw [parseStrAux_escR, ih]
                simp
              · rw [if_neg h6]
                by_cases h7 : c = '\t'
                · subst h7
                  rw [if_pos rfl]
                  show parseStrAux acc ('\\' :: 't' :: (escape cs ++ '"' :: rest)) = _
                  rw [parseStrAux_escT, ih]
                  simp
                · rw [if_neg h7]
                  by_cases h8 : c.toNat < 32
                  · rw [if_pos h8]
                    have hdiv : c.toNat / 16 < 16 := by omega
                    have hmod : c.toNat % 16 < 16 := Nat.mod_lt _ (by norm_num)
                    show parseStrAux acc
                      ('\\' :: 'u' :: '0' :: '0' :: hexDigit (c.toNat / 16)
                        :: hexDigit (c.toNat % 16) :: (escape cs ++ '"' :: rest)) = _
                    rw [parseStrAux_unicode _ _ _ _ _ _
                      (hexVal_hexDigit hdiv) (hexVal_hexDigit hmod)]
                    have ht : 16 * (c.toNat / 16) + c.toNat % 16 = c.toNat := by omega
                    rw [ht, Char.ofNat_toNat, ih]
                    simp
                  · rw [if_neg h8]
                    show parseStrAux acc (c :: (escape cs ++ '"' :: rest)) = _
                    rw [parseStrAux_lit _ _ _ h1 h2, ih]
                    simp

end Json

namespace Json

theorem numSafe_of_head {v : Json} {c : Char} {r : List Char}
    (h : isDigitChar c = false) : numSafe v (c :: r) := by
  cases v <;> first | exact h | trivial

theorem numSafe_nil (v : Json) : numSafe v [] := by
  cases v <;> trivial

theorem sizeV_pos (v : Json) : 1 ≤ sizeV v := by
  cases v <;> simp [sizeV]

theorem digit_ne_delims {c : Char} (h : isDigitChar c = true) :
    c ≠ 'n' ∧ c ≠ 't' ∧ c ≠ 'f' ∧ c ≠ '"' ∧ c ≠ '[' ∧ c ≠ '{' ∧ c ≠ '-' ∧
      c ≠ ']' ∧ c ≠ '}' ∧ c ≠ ',' := by
  refine ⟨?_, ?_, ?_, ?_, ?_, ?_, ?_, ?_, ?_, ?_⟩ <;>
    · rintro rfl
      exact absurd h (by decide)

/-- The first character of any printed JSON value, with the facts needed to
steer the parser. -/
theorem print_head (v : Json) :
    ∃ c cs, print v = c :: cs ∧ c ≠ ']' ∧ c ≠ '}' := by
  cases v with
  | null => exact ⟨'n', _, rfl, by decide, by decide⟩
  | bool b => cases b with
    | true => exact ⟨'t', _, rfl, by decide, by decide⟩
    | false => exact ⟨'f', _, rfl, by decide, by decide⟩
  | num n =>
    cases n with
    | ofNat m =>
      cases hpm : printNat m with
      | nil => exact absurd hpm (printNat_ne_nil m)
      | cons c cs =>
        have hc : isDigitChar c = true :=
          mem_printNat_isDigit (by rw [hpm]; exact List.mem_cons_self _ _)
        obtain ⟨_, _, _, _, _, _, _, h8, h9, _⟩ := digit_ne_delims hc
        exact ⟨c, cs, by simpa [print, printInt] using hpm, h8, h9⟩
    | negSucc m => exact ⟨'-', _, rfl, by decide, by decide⟩
  | str s => exact ⟨'"', _, rfl, by decide, by decide⟩
  | arr es => exact ⟨'[', _, rfl, by decide, by decide⟩
  | obj fs => exact ⟨'{', _, rfl, by decide, by decide⟩

/-- The printed form of a nonempty array starts with its first element. -/
theorem Jarr_print_cons (v : Json) (tl : Jarr) :
    ∃ t, Jarr.print (.cons v tl) = print v ++ t := by
  cases tl with
  | nil => exact ⟨[], by simp [Jarr.print]⟩
  | cons w tl2 => exact ⟨_, rfl⟩

end Json

mutual

/-- Round-trip: the parser recovers any printed JSON value (given enough fuel
and a continuation that cannot be absorbed into a number literal). -/
theorem Json.parseVal_print (v : Json) (f : Nat) (rest : List Char)
    (hf : Json.sizeV v ≤ f + 1) (hsafe : Json.numSafe v rest) :
    Json.parseVal (f + 1) (Json.print v ++ rest) = some (v, rest) := by
  cases v with
  | null =>
    show Json.parseVal (f + 1) ('n' :: 'u' :: 'l' :: 'l' :: rest) = _
    rw [Json.parseVal.eq_def]
    simp
  | bool b =>
    cases b with
    | true =>
      show Json.parseVal (f + 1) ('t' :: 'r' :: 'u' :: 'e' :: rest) = _
      rw [Json.parseVal.eq_def]
      simp
    | false =>
      show Json.parseVal (f + 1) ('f' :: 'a' :: 'l' :: 's' :: 'e' :: rest) = _
      rw [Json.parseVal.eq_def]
      simp
  | num n =>
    cases n with
    | ofNat m =>
      cases hpm : Json.printNat m with
      | nil => exact absurd hpm (Json.printNat_ne_nil m)
      | cons c cs =>
        have hdig : Json.isDigitChar c = true :=
          Json.mem_printNat_isDigit (by rw [hpm]; exact List.mem_cons_self _ _)
        obtain ⟨h1, h2, h3, h4, h5, h6, h7, _, _, _⟩ := Json.digit_ne_delims hdig
        show Json.parseVal (f + 1) (Json.printNat m ++ rest) = _
        rw [hpm, List.cons_append, Json.parseVal.eq_def]
        simp only [h1, h2, h3, h4, h5, h6, h7, hdig, if_neg, if_false, ite_false,
          if_true, ite_true, reduceIte]
        rw [← List.cons_append, ← hpm, Json.parseNat_printNat m rest hsafe]
        rfl
    | negSucc m =>
      show Json.parseVal (f + 1) ('-' :: (Json.printNat (m + 1) ++ rest)) = _
      rw [Json.parseVal.eq_def]
      simp only [reduceIte]
      rw [Json.parseNat_printNat (m + 1) rest hsafe]
      show some (Json.num (-((m + 1 : Nat) : Int)), rest) = _
      norm_num [Int.negSucc_eq]
  | str s =>
    show Json.parseVal (f + 1) ('"' :: ((Json.escape s.data ++ ['"']) ++ rest)) = _
    rw [Json.parseVal.eq_def]
    simp only [reduceIte, List.append_assoc, List.singleton_append]
    rw [Json.parseStrAux_escape]
    rfl
  | arr es =>
    cases es with
    | nil =>
      show Json.parseVal (f + 1) ('[' :: ']' :: rest) = _
      rw [Json.parseVal.eq_def]
      simp
    | cons v tl =>
      obtain ⟨t, ht⟩ := Json.Jarr_print_cons v tl
      obtain ⟨c, cs, hc, hcne, _⟩ := Json.print_head v
      have hsz : Jarr.sizeA (.cons v tl) ≤ f := by
        have : Json.sizeV (.arr (.cons v tl)) = 1 + Jarr.sizeA (.cons v tl) := rfl
        omega
      obtain ⟨f2, rfl⟩ : ∃ f2, f = f2 + 1 := by
        have : 1 ≤ Jarr.sizeA (.cons v tl) := by
          show 1 ≤ 1 + max (Json.sizeV v) (Jarr.sizeA tl)
          omega
        cases f with
        | zero => omega
        | succ f2 => exact ⟨f2, rfl⟩
      show Json.parseVal (f2 + 1 + 1)
        ('[' :: ((Jarr.print (.cons v tl) ++ [']']) ++ rest)) = _
      rw [Json.parseVal.eq_def]
      have hne2 : (Jarr.print (.cons v tl) ++ [']'] ++ rest).head? ≠ some ']' := by
        rw [ht, hc]
        simp [hcne]
      simp only [List.append_assoc, List.singleton_append] at hne2 ⊢
      simp [hne2]
      rw [Json.parseElems_print (.cons v tl) f2 rest (by simp) hsz]
      rw [if_neg (by rw [ht, hc]; simp [hcne])]
      rfl
  | obj fs =>
    cases fs with
    | nil =>
      show Json.parseVal (f + 1) ('{' :: '}' :: rest) = _
      rw [Json.parseVal.eq_def]
      simp
    | cons k v tl =>
      have hpr : ∃ t, Jobj.print (.cons k v tl) = '"' :: t := by
        cases tl with
        | nil => exact ⟨_, rfl⟩
        | cons k2 v2 tl2 => exact ⟨_, rfl⟩
      obtain ⟨t, ht⟩ := hpr
      have hsz : Jobj.sizeO (.cons k v tl) ≤ f := by
        have : Json.sizeV (.obj (.cons k v tl)) = 1 + Jobj.sizeO (.cons k v tl) := rfl
        omega
      obtain ⟨f2, rfl⟩ : ∃ f2, f = f2 + 1 := by
        have : 1 ≤ Jobj.sizeO (.cons k v tl) := by
          show 1 ≤ 1 + max (Json.sizeV v) (Jobj.sizeO tl)
          omega
        cases f with
        | zero => omega
        | succ f2 => exact ⟨f2, rfl⟩
      show Json.parseVal (f2 + 1 + 1)
        ('{' :: ((Jobj.print (.cons k v tl) ++ ['}']) ++ rest)) = _
      rw [Json.parseVal.eq_def]
      have hne2 : (Jobj.print (.cons k v tl) ++ ['}'] ++ rest).head? ≠ some '}' := by
        rw [ht]
        simp
      simp only [List.append_assoc, List.singleton_append] at hne2 ⊢
      simp [hne2]
      rw [Json.parseFields_print (.cons k v tl) f2 rest (by simp) hsz]
      rw [if_neg (by rw [ht]; simp)]
      rfl

/-- Round-trip for nonempty printed element lists. -/
theorem Json.parseElems_print (es : Jarr) (f : Nat) (rest : List Char)
    (hne : es ≠ .nil) (hf : Jarr.sizeA es ≤ f + 1) :
    Json.parseElems (f + 1) (Jarr.print es ++ ']' :: rest) = some (es, rest) := by
  cases es with
  | nil => exact absurd rfl hne
  | cons v tl =>
    have hm1 : Json.sizeV v ≤ max (Json.sizeV v) (Jarr.sizeA tl) := Nat.le_max_left _ _
    have hm2 : Jarr.sizeA tl ≤ max (Json.sizeV v) (Jarr.sizeA tl) := Nat.le_max_right _ _
    have hfe : 1 + max (Json.sizeV v) (Jarr.sizeA tl) ≤ f + 1 := hf
    obtain ⟨f2, rfl⟩ : ∃ f2, f = f2 + 1 := by
      have := Json.sizeV_pos v
      cases f with
      | zero => omega
      | succ f2 => exact ⟨f2, rfl⟩
    cases tl with
    | nil =>
      show Json.parseElems (f2 + 1 + 1) (Json.print v ++ ']' :: rest) = _
      rw [Json.parseElems.eq_def]
      simp only []
      rw [Json.parseVal_print v f2 (']' :: rest) (by omega)
        (Json.numSafe_of_head (by decide))]
      rfl
    | cons w tl2 =>
      show Json.parseElems (f2 + 1 + 1)
        ((Json.print v ++ ',' :: Jarr.print (.cons w tl2)) ++ ']' :: rest) = _
      rw [List.append_assoc, List.cons_append, Json.parseElems.eq_def]
      simp only []
      rw [Json.parseVal_print v f2 _ (by omega)
        (Json.numSafe_of_head (by decide))]
      simp only []
      rw [Json.parseElems_print (.cons w tl2) f2 rest (by simp) (by omega)]

/-- Round-trip for nonempty printed field lists. -/
theorem Json.parseFields_print (fs : Jobj) (f : Nat) (rest : List Char)
    (hne : fs ≠ .nil) (hf : Jobj.sizeO fs ≤ f + 1) :
    Json.parseFields (f + 1) (Jobj.print fs ++ '}' :: rest) = some (fs, rest) := by
  cases fs with
  | nil => exact absurd rfl hne
  | cons k v tl =>
    have hm1 : Json.sizeV v ≤ max (Json.sizeV v) (Jobj.sizeO tl) := Nat.le_max_left _ _
    have hm2 : Jobj.sizeO tl ≤ max (Json.sizeV v) (Jobj.sizeO tl) := Nat.le_max_right _ _
    have hfe : 1 + max (Json.sizeV v) (Jobj.sizeO tl) ≤ f + 1 := hf
    obtain ⟨f2, rfl⟩ : ∃ f2, f = f2 + 1 := by
      have := Json.sizeV_pos v
      cases f with
      | zero => omega
      | succ f2 => exact ⟨f2, rfl⟩
    cases tl with
    | nil =>
      show Json.parseFields (f2 + 1 + 1)
        ((('"' :: (Json.escape k.data ++ ['"'])) ++ ':' :: Json.print v) ++ '}' :: rest) = _
      rw [Json.parseFields.eq_def]
      simp only [List.cons_append, List.append_assoc, List.singleton_append]
      rw [Json.parseStrAux_escape]
      simp only [List.nil_append, List.reverse_nil]
      rw [Json.parseVal_print v f2 ('}' :: rest) (by omega)
        (Json.numSafe_of_head (by decide))]
      rfl
    | cons k2 v2 tl2 =>
      show Json.parseFields (f2 + 1 + 1)
        ((('"' :: (Json.escape k.data ++ ['"'])) ++ ':' :: Json.print v
          ++ ',' :: Jobj.print (.cons k2 v2 tl2)) ++ '}' :: rest) = _
      rw [Json.parseFields.eq_def]
      simp only [List.cons_append, List.append_assoc, List.singleton_append]
      rw [Json.parseStrAux_escape]
      simp only [List.nil_append, List.reverse_nil]
      rw [Json.parseVal_print v f2 _ (by omega)
        (Json.numSafe_of_head (by decide))]
      simp only []
      rw [Json.parseFields_print (.cons k2 v2 tl2) f2 rest (by simp) (by omega)]

end

mutual

/-- The fuel bound is dominated by the printed length. -/
theorem Json.sizeV_le (v : Json) : Json.sizeV v ≤ (Json.print v).length := by
  cases v with
  | null => simp [Json.print, Json.sizeV]
  | bool b => cases b <;> simp [Json.print, Json.sizeV]
  | num n =>
    cases n with
    | ofNat m =>
      have h := Json.printNat_ne_nil m
      have : 0 < (Json.printNat m).length := List.length_pos.mpr h
      simpa [Json.print, Json.printInt, Json.sizeV] using this
    | negSucc m => simp [Json.print, Json.printInt, Json.sizeV]
  | str s => simp [Json.print, Json.printStr, Json.sizeV]
  | arr es =>
    have h := Jarr.sizeA_le es
    show 1 + Jarr.sizeA es ≤ ('[' :: (Jarr.print es ++ [']'])).length
    simp only [List.length_cons, List.length_append, List.length_singleton]
    omega
  | obj fs =>
    have h := Jobj.sizeO_le fs
    show 1 + Jobj.sizeO fs ≤ ('{' :: (Jobj.print fs ++ ['}'])).length
    simp only [List.length_cons, List.length_append, List.length_singleton]
    omega

/-- Fuel bound for printed element lists. -/
theorem Jarr.sizeA_le (es : Jarr) : Jarr.sizeA es ≤ (Jarr.print es).length + 1 := by
  cases es with
  | nil => simp [Jarr.sizeA, Jarr.print]
  | cons v tl =>
    have hv := Json.sizeV_le v
    have hvpos : 1 ≤ (Json.print v).length := by
      obtain ⟨c, cs, hc, _, _⟩ := Json.print_head v
      rw [hc]
      simp
    cases tl with
    | nil =>
      show 1 + max (Json.sizeV v) (Jarr.sizeA .nil) ≤ (Json.print v).length + 1
      have : Jarr.sizeA .nil = 0 := rfl
      rw [this, Nat.max_zero]
      omega
    | cons w tl2 =>
      have htl := Jarr.sizeA_le (.cons w tl2)
      have hmax : max (Json.sizeV v) (Jarr.sizeA (.cons w tl2))
          ≤ (Json.print v).length + ((Jarr.print (.cons w tl2)).length + 1) :=
        Nat.max_le.mpr ⟨by omega, by omega⟩
      show 1 + max (Json.sizeV v) (Jarr.sizeA (.cons w tl2))
        ≤ (Json.print v ++ ',' :: Jarr.print (.cons w tl2)).length + 1
      simp only [List.length_append, List.length_cons]
      omega

/-- Fuel bound for printed field lists. -/
theorem Jobj.sizeO_le (fs : Jobj) : Jobj.sizeO fs ≤ (Jobj.print fs).length + 1 := by
  cases fs with
  | nil => simp [Jobj.sizeO, Jobj.print]
  | cons k v tl =>
    have hv := Json.sizeV_le v
    cases tl with
    | nil =>
      show 1 + max (Json.sizeV v) (Jobj.sizeO .nil)
        ≤ (Json.printStr k ++ ':' :: Json.print v).length + 1
      have : Jobj.sizeO .nil = 0 := rfl
      rw [this, Nat.max_zero]
      simp only [List.length_append, List.length_cons]
      omega
    | cons k2 v2 tl2 =>
      have htl := Jobj.sizeO_le (.cons k2 v2 tl2)
      have hmax : max (Json.sizeV v) (Jobj.sizeO (.cons k2 v2 tl2))
          ≤ (Json.printStr k).length + (Json.print v).length
            + ((Jobj.print (.cons k2 v2 tl2)).length + 1) :=
        Nat.max_le.mpr ⟨by omega, by omega⟩
      show 1 + max (Json.sizeV v) (Jobj.sizeO (.cons k2 v2 tl2))
        ≤ (Json.printStr k ++ ':' :: Json.print v
            ++ ',' :: Jobj.print (.cons k2 v2 tl2)).length + 1
      simp only [List.length_append, List.length_cons]
      omega

end

/-- **Round-trip.** `JSON.parse` recovers every value `JSON.stringify`
produces: the canonical encoding of the protocol is lossless. -/
theorem Json.parse_stringify (v : Json) : Json.parse (Json.stringify v) = some v := by
  show (match Json.parseVal ((Json.print v).length + 1) (Json.print v) with
        | some (w, []) => some w
        | _ => none) = some v
  have h := Json.parseVal_print v (Json.print v).length []
    (le_trans (Json.sizeV_le v) (by omega)) (Json.numSafe_nil v)
  rw [List.append_nil] at h
  rw [h]

/-- `JSON.stringify` is injective: distinct JSON values have distinct
canonical byte strings.  This is the pillar of signed-field coverage. -/
theorem Json.print_injective {v w : Json} (h : Json.print v = Json.print w) : v = w := by
  have hv := Json.parse_stringify v
  have hw := Json.parse_stringify w
  unfold Json.stringify at hv hw
  rw [h] at hv
  rw [hv] at hw
  exact Option.some.inj hw

/-! ### Claim theorems -/

theorem jsonOfOptStr_inj {a b : Option String} (h : jsonOfOptStr a = jsonOfOptStr b) :
    a = b := by
  cases a <;> cases b <;> simp_all [jsonOfOptStr]

theorem signedJson_inj {e e2 : Envelope} (h : signedJson e = signedJson e2) :
    e = e2 := by
  cases e
  cases e2
  simp only [signedJson, Json.obj.injEq, Jobj.cons.injEq, Json.str.injEq,
    and_true, true_and] at h
  obtain ⟨h1, h2, h3, h4, h5, h6, h7, h8⟩ := h
  subst h1 h2 h3 h4 h5 h6 h8
  rw [jsonOfOptStr_inj h7]

theorem canonBytes_inj {e e2 : Envelope} (h : canonBytes e = canonBytes e2) :
    e = e2 :=
  signedJson_inj (Json.print_injective h)

/-- **C9.** Signature round-trip and signed-field coverage: for every
envelope and keypair, verifying the produced signature against the matching
public key succeeds; and for every envelope that differs from the signed one
in any of the eight signed fields (`Envelope` consists of exactly those
fields), verification of the original signature fails. -/
theorem C9_signature_roundtrip_coverage :
    (∀ (e : Envelope) (k : PrivKey),
      verifyMessage e (signMessage e k) (pubOf k) = true) ∧
    (∀ (e e2 : Envelope) (k : PrivKey), e ≠ e2 →
      verifyMessage e2 (signMessage e k) (pubOf k) = false) := by
  constructor
  · intro e k
    simp [verifyMessage, verifyPrim, signMessage, signPrim, pubOf]
  · intro e e2 k hne
    simp only [verifyMessage, verifyPrim, signMessage, signPrim, pubOf,
      decide_eq_false_iff_not]
    rintro ⟨hmsg, -⟩
    exact hne (canonBytes_inj hmsg)

/-- Witness for C9: a concrete envelope pair differing only in `payload`. -/
theorem C9_witness :
    verifyMessage ⟨"i", "t", .obj .nil, .obj .nil, "c", "message", none, .num 2⟩
      (signMessage ⟨"i", "t", .obj .nil, .obj .nil, "c", "message", none, .num 1⟩ ⟨3⟩)
      (pubOf ⟨3⟩) = false :=
  C9_signature_roundtrip_coverage.2
    ⟨"i", "t", .obj .nil, .obj .nil, "c", "message", none, .num 1⟩
    ⟨"i", "t", .obj .nil, .obj .nil, "c", "message", none, .num 2⟩
    ⟨3⟩
    (by
      intro h
      have := congrArg Envelope.payload h
      simp at this)

/-- **C10.** Encryption round-trip: decrypting with the recipient's private
key returns the payload; decrypting with any other private key yields `none`
(a decryption failure), never an incorrect plaintext. -/
theorem C10_encryption_roundtrip :
    (∀ (P : Json) (k eph : XPriv) (iv : Nat),
      decryptPayloadX25519 (encryptPayloadX25519 P (xpub k) eph iv) k = some P) ∧
    (∀ (P : Json) (k eph other : XPriv) (iv : Nat), other ≠ k →
      decryptPayloadX25519 (encryptPayloadX25519 P (xpub k) eph iv) other = none) := by
  constructor
  · intro P k eph iv
    simp only [encryptPayloadX25519, decryptPayloadX25519, Json.getField,
      Json.Jobj.lookup, hkdf, dh, xpub]
    simp
    exact ⟨by omega, Json.parse_stringify P⟩
  · intro P k eph other iv hne
    have hsc : other.scalar ≠ k.scalar := by
      intro h
      exact hne (by cases other; cases k; simpa using h)
    simp only [encryptPayloadX25519, decryptPayloadX25519, Json.getField,
      Json.Jobj.lookup, hkdf, dh, xpub]
    simp
    intro h
    exact absurd (by omega : other.scalar = k.scalar) hsc

/-- Witness for C10: a wrong key fails to decrypt a concrete ciphertext. -/
theorem C10_witness :
    decryptPayloadX25519
      (encryptPayloadX25519 (.obj (.cons "a" (.num 1) .nil)) (xpub ⟨5⟩) ⟨9⟩ 3)
      ⟨6⟩ = none :=
  C10_encryption_roundtrip.2 (.obj (.cons "a" (.num 1) .nil)) ⟨5⟩ ⟨9⟩ ⟨6⟩ 3
    (by decide)

set_option maxRecDepth 20000 in
/-- **C1.** (The claim fails; the spec itself flags the source behaviour as
a bug.)  At a concrete send where encryption applies, `createEnvelope` signs
the *plaintext* payload and `sendMessage` encrypts afterwards without
re-signing: the delivered envelope carries an encrypted payload, yet its
signature verifies only against the plaintext-payload variant and fails
against the delivered envelope itself — the signed bytes do not contain the
`{_encrypted, ephemeralPub, nonce, ciphertext, tag}` object. -/
theorem C1_sign_over_plaintext_bug :
    c1sent = some c1d
    ∧ isEncrypted c1d.payload = true
    ∧ c1d.signature = some (signMessage (coreOf c1w) k0)
    ∧ verifyMessage (coreOf c1d) (signMessage (coreOf c1w) k0) (pubOf k0) = false
    ∧ verifyMessage (coreOf c1w) (signMessage (coreOf c1w) k0) (pubOf k0) = true := by
  refine ⟨rfl, by decide, by decide, by decide, by decide⟩

/-- **C2 (amended).** The signed byte string is the JSON encoding of exactly
`{id, timestamp, from, to, conversation, type, intent, payload}` with keys
in the *object-insertion* order of the source (id, timestamp, from, to,
conversation, type, intent, payload) and no whitespace; `nonce`,
`expiresAt`, `requires_human_approval` and `signature` are not part of the
signed bytes (envelopes agreeing on the eight signed fields sign
identically). -/
theorem C2_signed_bytes_insertion_order :
    (∀ w : WireEnvelope,
      signedBytes w
        = '{' :: (Json.printStr "id" ++ ':' :: Json.printStr w.id
          ++ ',' :: Json.printStr "timestamp" ++ ':' :: Json.printStr w.timestamp
          ++ ',' :: Json.printStr "from" ++ ':' :: Json.print w.fromF
          ++ ',' :: Json.printStr "to" ++ ':' :: Json.print w.toF
          ++ ',' :: Json.printStr "conversation" ++ ':' :: Json.printStr w.conversation
          ++ ',' :: Json.printStr "type" ++ ':' :: Json.printStr w.type
          ++ ',' :: Json.printStr "intent" ++ ':' :: Json.print (jsonOfOptStr w.intent)
          ++ ',' :: Json.printStr "payload" ++ ':' :: Json.print w.payload
          ++ ['}']))
    ∧ (∀ w w2 : WireEnvelope, coreOf w = coreOf w2 → signedBytes w = signedBytes w2) := by
  constructor
  · intro w
    simp [signedBytes, canonBytes, signedJson, coreOf, Json.print, Jobj.print,
      Json.printStr]
  · intro w w2 h
    simp [signedBytes, canonBytes, h]

/-- Witness for C2: two envelopes differing only in nonce, expiry, approval
flag and signature have identical signed bytes. -/
theorem C2_witness :
    signedBytes c1w
      = signedBytes
          { c1w with
            nonce := some "nn"
            expiresAt := some "ee"
            requires_human_approval := false
            signature := none } :=
  C2_signed_bytes_insertion_order.2 c1w
    { c1w with
      nonce := some "nn"
      expiresAt := some "ee"
      requires_human_approval := false
      signature := none } rfl

set_option maxRecDepth 20000 in
/-- **C2 (counterexample).** The signed bytes are NOT in lexicographic key
order: at a concrete envelope they differ from the spec-worded lexicographic
encoding. -/
theorem C2_counterexample : signedBytes c1w ≠ signedBytesLexSpec c1w := by
  decide

/-- **C4.** (Code bug.)  `processMessage` verifies a signature only when the
envelope *carries* one: a concrete unsigned envelope from a sender whose
Ed25519 key is recorded is accepted (`status:"ok"`), although the claim —
and the repository's own protocol spec, which lists `signature` as a
required field — says an envelope from a sender with a known key is never
accepted without its signature verifying. -/
theorem C4_unsigned_envelope_accepted_bug :
    (match getContact contacts4 "alice" with
     | some c => c.publicKey
     | none => none) = some ⟨42⟩
    ∧ e4.signature = none
    ∧ processMessage contacts4 [] 0 ⟨7⟩ e4 = .ok := by
  refine ⟨by decide, by decide, by decide⟩

/-- **C6 (amended).** Commerce guard as the code implements it: a request
whose intent has prefix `commerce.` is never answered `ok`; when the
intent has a registered handler it is answered `pending_approval` with a
pending approval saved, for every contact map (hence every trust level).
A commerce-prefixed intent without a registered handler is answered with an
unsupported-intent error instead. -/
theorem C6_commerce_guard_amended :
    ∀ (contacts : Contacts) (e : WireEnvelope) (i : String),
      e.intent = some i → strHasNS "commerce." i = true →
      ((handleRequest contacts e).1 ≠ SrvResult.ok)
      ∧ ((getHandler e.intent).isSome →
          handleRequest contacts e = (.pendingApproval, true)) := by
  intro contacts e i hi hpre
  cases hg : getHandler e.intent with
  | none =>
    constructor
    · simp [handleRequest, hg]
    · intro hs
      simp at hs
  | some handler =>
    rw [hi] at hg
    simp only [getHandler] at hg
    cases hf : List.find? (fun p => p.1 = i) HANDLERS with
    | none =>
      rw [hf] at hg
      simp at hg
    | some p =>
      have hmem := List.mem_of_find?_eq_some hf
      have h0 := List.find?_some hf
      have hkey : p.1 = i := by simpa using h0
      simp only [HANDLERS, List.mem_cons, List.not_mem_nil, or_false] at hmem
      rcases hmem with h|h|h|h|h|h|h|h|h|h|h
      all_goals
        first
        | (exfalso
           subst h
           rw [← hkey] at hpre
           exact absurd hpre (by decide))
        | (subst h
           rw [← hkey] at hi
           have hpend : handleRequest contacts e = (.pendingApproval, true) := by
             simp [handleRequest, getHandler, hi, HANDLERS, requiresApproval,
               alwaysApproveIntent, ALWAYS_APPROVE]
           rw [hpend]
           exact ⟨by simp, fun _ => rfl⟩)

/-- Witness for C6: a `commerce.request` from a fully trusted sender is
still routed to pending approval. -/
theorem C6_witness :
    ((handleRequest contacts6 e6b).1 ≠ SrvResult.ok)
    ∧ ((getHandler e6b.intent).isSome →
        handleRequest contacts6 e6b = (.pendingApproval, true)) :=
  C6_commerce_guard_amended contacts6 e6b "commerce.request" rfl (by decide)

/-- **C6 (counterexample).** A commerce-prefixed request with no registered
handler (`commerce.quote`) from a trusted sender is answered with an
unsupported-intent error and no pending approval — not `pending_approval`
as the claim states for every commerce-prefixed intent. -/
theorem C6_counterexample :
    ((match getContact contacts6 "bob" with
      | some c => c.trustLevel
      | none => none) = some "trusted")
    ∧ e6.intent = some "commerce.quote"
    ∧ handleRequest contacts6 e6 = (.error "unsupported_intent", false) := by
  refine ⟨by decide, by decide, by decide⟩

/-- **C7.** Conversation state-machine soundness: for a stored conversation,
a transition succeeds exactly for the table moves
`proposed → {negotiating, confirmed, rejected, expired}` and
`negotiating → {confirmed, rejected, expired}`; terminal states admit no
move (the request returns `null` and the store — including `updatedAt` — is
untouched); and every rejected transition leaves the store unchanged. -/
theorem C7_conversation_state_machine :
    ∀ (store : ConvStore) (cid newState : String) (now : Int) (meta : ConvMeta),
      getConversation store cid = some meta →
      (((transitionState store cid newState now).1.isSome = true) ↔
        ((meta.state = "proposed"
            ∧ (newState = "negotiating" ∨ newState = "confirmed"
                ∨ newState = "rejected" ∨ newState = "expired"))
          ∨ (meta.state = "negotiating"
              ∧ (newState = "confirmed" ∨ newState = "rejected"
                  ∨ newState = "expired"))))
      ∧ ((meta.state = "confirmed" ∨ meta.state = "rejected" ∨ meta.state = "expired") →
          transitionState store cid newState now = (none, store))
      ∧ ((transitionState store cid newState now).1 = none →
          transitionState store cid newState now = (none, store)) := by
  intro store cid newState now meta hmeta
  by_cases h1 : meta.state = "proposed"
  · constructor
    · simp only [transitionState, hmeta, TRANSITIONS, h1]
      split
      · rename_i hcon
        rw [List.elem_iff] at hcon
        simp only [List.mem_cons, List.not_mem_nil, or_false] at hcon
        simp [h1]
        tauto
      · rename_i hcon
        rw [not_not, List.elem_iff] at hcon
        simp only [List.mem_cons, List.not_mem_nil, or_false] at hcon
        simp [h1]
        tauto
    · constructor
      · rintro (h | h | h) <;> simp [h] at h1
      · intro hnone
        simp only [transitionState, hmeta, TRANSITIONS, h1] at hnone ⊢
        by_cases hc : ¬ (["negotiating", "confirmed", "rejected", "expired"].contains newState = true)
        · rw [if_pos hc]
        · rw [if_neg hc] at hnone
          simp at hnone
  · by_cases h2 : meta.state = "negotiating"
    · constructor
      · simp only [transitionState, hmeta, TRANSITIONS, h2]
        split
        · rename_i hcon
          rw [List.elem_iff] at hcon
          simp only [List.mem_cons, List.not_mem_nil, or_false] at hcon
          simp [h1, h2]
          tauto
        · rename_i hcon
          rw [not_not, List.elem_iff] at hcon
          simp only [List.mem_cons, List.not_mem_nil, or_false] at hcon
          simp [h1, h2]
          tauto
      · constructor
        · rintro (h | h | h) <;> simp [h] at h2
        · intro hnone
          simp only [transitionState, hmeta, TRANSITIONS, h2] at hnone ⊢
          by_cases hc : ¬ (["confirmed", "rejected", "expired"].contains newState = true)
          · rw [if_pos hc]
          · rw [if_neg hc] at hnone
            simp at hnone
    · have hterm : TRANSITIONS meta.state = some [] ∨ TRANSITIONS meta.state = none := by
        unfold TRANSITIONS
        split <;> simp_all
      have hres : transitionState store cid newState now = (none, store) := by
        rcases hterm with h | h <;>
          simp [transitionState, hmeta, h]
      refine ⟨?_, fun _ => hres, fun _ => hres⟩
      simp [hres, h1, h2]

/-- Witness for C7: the fixture store admits `proposed → negotiating` and
keeps the terminal `confirmed` conversation frozen. -/
theorem C7_witness :
    (((transitionState store7 "c-prop" "negotiating" 999).1.isSome = true) ↔
      ((("proposed" : String) = "proposed"
          ∧ (("negotiating" : String) = "negotiating" ∨ ("negotiating" : String) = "confirmed"
              ∨ ("negotiating" : String) = "rejected" ∨ ("negotiating" : String) = "expired"))
        ∨ (("proposed" : String) = "negotiating"
            ∧ (("negotiating" : String) = "confirmed" ∨ ("negotiating" : String) = "rejected"
                ∨ ("negotiating" : String) = "expired"))))
    ∧ ((("proposed" : String) = "confirmed" ∨ ("proposed" : String) = "rejected"
          ∨ ("proposed" : String) = "expired") →
        transitionState store7 "c-prop" "negotiating" 999 = (none, store7))
    ∧ (((transitionState store7 "c-prop" "negotiating" 999).1 = none) →
        transitionState store7 "c-prop" "negotiating" 999 = (none, store7)) :=
  C7_conversation_state_machine store7 "c-prop" "negotiating" 999
    { state := "proposed", updatedAt := 100 } (by decide)

/-- Exhausting all retries of `attemptDelivery` invokes `onFailure` exactly
once, marks the entry `failed`, writes nothing to the dead-letter store and
never removes the entry from the outbox. -/
theorem attemptDelivery_exhaust :
    ∀ (fuel : Nat) (e : QEntry) (outcomes : Nat → Bool),
      (∀ i, outcomes i = false) →
      e.status ≠ "delivered" → e.status ≠ "failed" →
      e.maxRetries ≤ e.attempt + fuel + 1 →
      ((attemptDelivery fuel e outcomes).2.2.1 = 1
        ∧ (attemptDelivery fuel e outcomes).1.status = "failed"
        ∧ (attemptDelivery fuel e outcomes).2.2.2.countP FsOp.isDlqWrite = 0
        ∧ (attemptDelivery fuel e outcomes).2.2.2.countP FsOp.isRemove = 0) := by
  intro fuel
  induction fuel with
  | zero =>
    intro e outcomes hout hd hf hb
    rw [attemptDelivery]
    rw [if_neg (by simp [hd, hf])]
    rw [hout e.attempt]
    have hc : e.maxRetries ≤ e.attempt + 1 := by omega
    simp [hc, List.countP_cons, FsOp.isDlqWrite, FsOp.isRemove]
  | succ f ih =>
    intro e outcomes hout hd hf hb
    rw [attemptDelivery]
    rw [if_neg (by simp [hd, hf])]
    rw [hout e.attempt]
    by_cases hmax : e.maxRetries ≤ e.attempt + 1
    · simp [hmax, List.countP_cons, FsOp.isDlqWrite, FsOp.isRemove]
    · have hrec := ih { e with attempt := e.attempt + 1, status := "retrying", lastError := some "send failed" } outcomes hout (by simp) (by simp) (by simp; omega)
      simp only [QEntry.mk.injEq] at hrec
      simp [hmax, List.countP_cons, FsOp.isDlqWrite, FsOp.isRemove,
        hrec.1, hrec.2.1, hrec.2.2.1, hrec.2.2.2]

/-- **C8 (amended).** When every delivery attempt fails: the queue worker
(`attemptDelivery`) exhausts its retries, calls `onFailure` exactly once,
marks the entry `failed` in the outbox, and writes **no** dead-letter entry
(nor removes the outbox entry); the interactive path (`AI2AI._deliver`)
emits exactly one `failed` event, enqueues the envelope to the persistent
queue, and likewise leaves the dead-letter queue untouched. -/
theorem C8_exhaustion_no_dlq :
    (∀ (e : QEntry) (outcomes : Nat → Bool) (fuel : Nat),
      (∀ i, outcomes i = false) → e.status = "queued" →
      e.maxRetries ≤ e.attempt + fuel + 1 →
      ((attemptDelivery fuel e outcomes).2.2.1 = 1
        ∧ (attemptDelivery fuel e outcomes).1.status = "failed"
        ∧ (attemptDelivery fuel e outcomes).2.2.2.countP FsOp.isDlqWrite = 0
        ∧ (attemptDelivery fuel e outcomes).2.2.2.countP FsOp.isRemove = 0))
    ∧ (∀ (st : DeliverState) (idv : String) (outcomes : Nat → Bool),
      (∀ i, outcomes i = false) →
      deliver st idv outcomes
        = ("queued", { st with queueEntries := st.queueEntries ++ [idv] },
           [DEvent.sent idv, DEvent.failed idv])) := by
  constructor
  · intro e outcomes fuel hout hq hb
    exact attemptDelivery_exhaust fuel e outcomes hout (by simp [hq]) (by simp [hq]) hb
  · intro st idv outcomes hout
    have hr : retrySucceeds outcomes = false := by
      simp [retrySucceeds, List.any_eq_false]
      intro i _
      exact hout i
    simp [deliver, hr]

/-- Witness for C8: concrete exhausted runs of both delivery paths. -/
theorem C8_witness :
    ((attemptDelivery 5 e8 (fun _ => false)).2.2.1 = 1
      ∧ (attemptDelivery 5 e8 (fun _ => false)).1.status = "failed"
      ∧ (attemptDelivery 5 e8 (fun _ => false)).2.2.2.countP FsOp.isDlqWrite = 0
      ∧ (attemptDelivery 5 e8 (fun _ => false)).2.2.2.countP FsOp.isRemove = 0)
    ∧ deliver {} "m-8" (fun _ => false)
        = ("queued", { queueEntries := ["m-8"], dlqEntries := [] },
           [DEvent.sent "m-8", DEvent.failed "m-8"]) :=
  ⟨C8_exhaustion_no_dlq.1 e8 (fun _ => false) 5 (fun _ => rfl) rfl (by decide),
   C8_exhaustion_no_dlq.2 {} "m-8" (fun _ => false) (fun _ => rfl)⟩

/-- **C8 (counterexample).** At a concrete exhausted delivery, the number of
dead-letter entries written is zero, not one: no code path feeds the DLQ on
retry exhaustion (only one `failed` notification is produced). -/
theorem C8_counterexample :
    ((attemptDelivery 5 e8 (fun _ => false)).2.2.2.countP FsOp.isDlqWrite = 0)
    ∧ ((attemptDelivery 5 e8 (fun _ => false)).2.2.1 = 1)
    ∧ ((attemptDelivery 5 e8 (fun _ => false)).1.status = "failed")
    ∧ ((deliver {} "m-9" (fun _ => false)).2.1.dlqEntries = []) := by
  refine ⟨by decide, by decide, by decide, by decide⟩

/-- **C3 (counterexample).** A malformed envelope (`ai2ai` missing) from a
*blocked* sender is answered `invalid_envelope`, not `blocked`: the shape
check runs before the blocklist, so the claimed filter order (blocklist
first, shape fifth) is wrong; the pipeline also performs no signature
verification at all. -/
theorem C3_counterexample :
    (nodeHandle st3 0 e3).1 = HResp.invalidEnvelope
    ∧ blocklistHas st3.blocked (e3.fromF.bind agentField) = true := by
  refine ⟨by decide, by decide⟩

/-- **C3 (amended).** The inbound filters run in the source order — envelope
shape, blocklist, rate limit, expiry, nonce replay, dedup — with the first
failing filter determining the response (`filterVerdict` is exactly that
first-failing-filter reading of the chain over the pre-state; there is no
signature-verification step in this pipeline). -/
theorem C3_filter_order :
    ∀ (st : NodeState) (now : Int) (e : InEnv),
      (nodeHandle st now e).1 = filterVerdict st now e := by
  intro st now e
  by_cases h1 : (truthyStr e.ai2ai && truthyStr e.type && e.fromF.isSome) = true
  case neg => simp [nodeHandle, filterVerdict, shapeOk, h1]
  case pos =>
  by_cases h2 : blocklistHas st.blocked (e.fromF.bind agentField) = true
  case pos => simp [nodeHandle, filterVerdict, shapeOk, h1, h2]
  case neg =>
  by_cases h3 : (rateAllow st.rateWindows (e.fromF.bind agentField) now).1 = true
  case neg => simp [nodeHandle, filterVerdict, shapeOk, h1, h2, h3]
  case pos =>
  by_cases h4 : isMessageExpired e.timestamp now messageTTL = true
  case pos => simp [nodeHandle, filterVerdict, shapeOk, h1, h2, h3, h4]
  case neg =>
  cases hn : e.nonce with
  | none =>
    simp [nodeHandle, filterVerdict, shapeOk, nonceReplayPred, dedupPred,
      h1, h2, h3, h4, hn]
    by_cases h6 : (dedupIsDuplicate st.seen e.id now).1 = true <;> simp [h6]
  | some nv =>
    by_cases hnv : nv = ""
    · subst hnv
      simp [nodeHandle, filterVerdict, shapeOk, nonceReplayPred, dedupPred,
        h1, h2, h3, h4, hn]
      by_cases h6 : (dedupIsDuplicate st.seen e.id now).1 = true <;> simp [h6]
    · by_cases h5 : (nonceIsReplay st.nonces nv now).1 = true
      · simp [nodeHandle, filterVerdict, shapeOk, nonceReplayPred, dedupPred,
          h1, h2, h3, h4, hn, hnv, h5]
      · simp [nodeHandle, filterVerdict, shapeOk, nonceReplayPred, dedupPred,
          h1, h2, h3, h4, hn, hnv, h5]
        by_cases h6 : (dedupIsDuplicate st.seen e.id now).1 = true <;> simp [h6]

theorem find?_append_isSome {α : Type} (p : α → Bool) (l1 l2 : List α)
    (h : (l1.find? p).isSome = true) : ((l1 ++ l2).find? p).isSome = true := by
  induction l1 with
  | nil => simp at h
  | cons a tl ih =>
    cases hp : p a with
    | true => simp [List.find?_cons, hp]
    | false =>
      simp only [List.find?_cons, hp] at h
      simp only [List.cons_append, List.find?_cons, hp]
      exact ih h

/-- One ingress step either fails a filter (dedup included): no events, the
dedup map unchanged; or accepts: events emitted, the id recorded, and the id
was previously unseen.  (Requires the dedup map below its eviction bound, so
`_cleanup` is the identity.) -/
theorem nodeHandle_seen_step (st : NodeState) (now : Int) (e : InEnv)
    (hlen : st.seen.length ≤ 10000) :
    ((nodeHandle st now e).2.1.seen = st.seen
       ∧ (nodeHandle st now e).2.2 = []
       ∧ (nodeHandle st now e).1 ≠ HResp.okResp)
    ∨ ((nodeHandle st now e).1 = HResp.okResp
       ∧ (nodeHandle st now e).2.1.seen = st.seen ++ [(e.id, now)]
       ∧ (st.seen.find? (fun p => p.1 = e.id)).isSome = false) := by
  by_cases h1 : (truthyStr e.ai2ai && truthyStr e.type && e.fromF.isSome) = true
  case neg => left; simp [nodeHandle, h1]
  case pos =>
  by_cases h2 : blocklistHas st.blocked (e.fromF.bind agentField) = true
  case pos => left; simp [nodeHandle, h1, h2]
  case neg =>
  by_cases h3 : (rateAllow st.rateWindows (e.fromF.bind agentField) now).1 = true
  case neg => left; simp [nodeHandle, h1, h2, h3]
  case pos =>
  by_cases h4 : isMessageExpired e.timestamp now messageTTL = true
  case pos => left; simp [nodeHandle, h1, h2, h3, h4]
  case neg =>
  have hdd : dedupIsDuplicate st.seen e.id now
      = (if (st.seen.find? (fun p => p.1 = e.id)).isSome then (true, st.seen)
         else (false, st.seen ++ [(e.id, now)])) := by
    simp only [dedupIsDuplicate, if_pos hlen]
  by_cases h6 : (st.seen.find? (fun p => p.1 = e.id)).isSome = true
  case pos =>
    left
    cases hn : e.nonce with
    | none => simp [nodeHandle, h1, h2, h3, h4, hn, hdd, h6]
    | some nv =>
      by_cases hnv : nv = ""
      · subst hnv
        simp [nodeHandle, h1, h2, h3, h4, hn, hdd, h6]
      · by_cases h5 : (nonceIsReplay st.nonces nv now).1 = true
        · simp [nodeHandle, h1, h2, h3, h4, hn, hnv, h5, hdd, h6]
        · simp [nodeHandle, h1, h2, h3, h4, hn, hnv, h5, hdd, h6]
  case neg =>
    cases hn : e.nonce with
    | none =>
      right
      simp [nodeHandle, h1, h2, h3, h4, hn, hdd, h6]
    | some nv =>
      by_cases hnv : nv = ""
      · right
        subst hnv
        simp [nodeHandle, h1, h2, h3, h4, hn, hdd, h6]
      · by_cases h5 : (nonceIsReplay st.nonces nv now).1 = true
        · left
          simp [nodeHandle, h1, h2, h3, h4, hn, hnv, h5]
        · right
          simp [nodeHandle, h1, h2, h3, h4, hn, hnv, h5, hdd, h6]

/-- Once an id is recorded in the dedup map, the rest of a (bounded) trace
never accepts an envelope bearing it. -/
theorem trace_no_emit (tr : List (Int × InEnv)) :
    ∀ (st : NodeState) (idv : Option String),
      (st.seen.find? (fun p => p.1 = idv)).isSome = true →
      st.seen.length + tr.length ≤ 10000 →
      emitCount st tr idv = 0 := by
  induction tr with
  | nil => intro st idv hmem hlen; rfl
  | cons step tl ih =>
    intro st idv hmem hlen
    obtain ⟨now, e⟩ := step
    have hlen1 : st.seen.length ≤ 10000 := by
      simp [List.length_cons] at hlen
      omega
    have hstep := nodeHandle_seen_step st now e hlen1
    simp only [emitCount, runTrace, List.zip_cons_cons, List.countP_cons] at ih ⊢
    rcases hstep with ⟨hs, he, hr⟩ | ⟨hr, hs, hnone⟩
    · have hpred : decide ((nodeHandle st now e).1 = HResp.okResp ∧ e.id = idv) = false := by
        simp [hr]
      rw [hpred]
      have hrec := ih (nodeHandle st now e).2.1 idv (by rw [hs]; exact hmem)
        (by rw [hs]; simp [List.length_cons] at hlen ⊢; omega)
      simp only [emitCount] at hrec
      simpa using hrec
    · have hid : ¬ (e.id = idv) := by
        intro hcontra
        rw [hcontra] at hnone
        rw [hmem] at hnone
        exact absurd hnone (by decide)
      have hpred : decide ((nodeHandle st now e).1 = HResp.okResp ∧ e.id = idv) = false := by
        simp [hid]
      rw [hpred]
      have hmem2 : ((nodeHandle st now e).2.1.seen.find? (fun p => p.1 = idv)).isSome = true := by
        rw [hs]
        exact find?_append_isSome _ _ _ hmem
      have hrec := ih (nodeHandle st now e).2.1 idv hmem2
        (by rw [hs]; simp [List.length_cons, List.length_append] at hlen ⊢; omega)
      simp only [emitCount] at hrec
      simpa using hrec

/-- **C5 (amended).** Dedup idempotence as the code provides it: along any
trace of at most 10 000 inbound envelopes (so that the dedup cache never
evicts), the events for a given envelope id are emitted at most once; and
an envelope whose id is already recorded is never answered `ok` and emits
nothing (it is answered `duplicate` when it survives the earlier filters,
or by the earlier filter's own rejection — e.g. an identical replay is
caught by the nonce filter first). -/
theorem C5_dedup_at_most_once :
    (∀ (tr : List (Int × InEnv)) (st : NodeState) (idv : Option String),
      st.seen.length + tr.length ≤ 10000 →
      emitCount st tr idv ≤ 1)
    ∧ (∀ (st : NodeState) (now : Int) (e : InEnv),
      st.seen.length ≤ 10000 →
      (st.seen.find? (fun p => p.1 = e.id)).isSome = true →
      (nodeHandle st now e).1 ≠ HResp.okResp ∧ (nodeHandle st now e).2.2 = []) := by
  constructor
  · intro tr
    induction tr with
    | nil => intro st idv hlen; simp [emitCount, runTrace]
    | cons step tl ih =>
      intro st idv hlen
      obtain ⟨now, e⟩ := step
      have hlen1 : st.seen.length ≤ 10000 := by
        simp [List.length_cons] at hlen
        omega
      have hstep := nodeHandle_seen_step st now e hlen1
      simp only [emitCount, runTrace, List.zip_cons_cons, List.countP_cons] at ih ⊢
      rcases hstep with ⟨hs, he, hr⟩ | ⟨hr, hs, hnone⟩
      · have hpred : decide ((nodeHandle st now e).1 = HResp.okResp ∧ e.id = idv) = false := by
          simp [hr]
        rw [hpred]
        have hrec := ih (nodeHandle st now e).2.1 idv
          (by rw [hs]; simp [List.length_cons] at hlen ⊢; omega)
        simp only [emitCount] at hrec
        simpa using hrec
      · by_cases hid : e.id = idv
        · have htail : emitCount (nodeHandle st now e).2.1 tl idv = 0 := by
            apply trace_no_emit
            · rw [hs]
              rw [List.find?_isSome]
              exact ⟨(e.id, now), by simp, by simp [hid]⟩
            · rw [hs]
              simp [List.length_cons, List.length_append] at hlen ⊢
              omega
          simp only [emitCount] at htail
          rw [htail]
          split <;> simp
        · have hpred : decide ((nodeHandle st now e).1 = HResp.okResp ∧ e.id = idv) = false := by
            simp [hid]
          rw [hpred]
          have hrec := ih (nodeHandle st now e).2.1 idv
            (by rw [hs]; simp [List.length_cons, List.length_append] at hlen ⊢; omega)
          simp only [emitCount] at hrec
          simpa using hrec
  · intro st now e hlen hmem
    rcases nodeHandle_seen_step st now e hlen with ⟨hs, he, hr⟩ | ⟨hr, hs, hnone⟩
    · exact ⟨hr, he⟩
    · rw [hmem] at hnone
      exact absurd hnone (by decide)

/-- Witness for C5: a two-element trace repeating one envelope id. -/
theorem C5_witness :
    emitCount {} [(0, e5), (1, e5)] (some "id-5") ≤ 1 :=
  C5_dedup_at_most_once.1 [(0, e5), (1, e5)] {} (some "id-5") (by decide)

/-- **C5 (counterexample).** Posting the identical envelope (same id, same
nonce) twice: the second POST is answered `replay_detected` by the nonce
filter, not `{status:"duplicate"}` as the claim states for every repeated
id; only the first POST emits events. -/
theorem C5_counterexample :
    runTrace {} [(0, e5), (1, e5)]
      = [(.okResp, [Event.message (some "id-5"), Event.receiptSend (some "id-5")]),
         (.replayDetected, [])] := by
  decide

end AI2AI